import Mathlib

/-!
Verification of the trdb slotted-page storage engine.

The definitions below are a shallow embedding of the Rust sources:

* `crates/storage/page/src/page/{api,ctors,read_row,insert,delete,update,internal}.rs`
* `crates/storage/page/src/impls/plan_insert.rs` (the insertion planner used
  by the `page` module operations)
* `crates/storage/page/src/{header,slot,slot_array}.rs`
* `crates/storage/binary-helpers/src/{le,conversions}.rs`
* `crates/storage/buffer/src/buffer.rs` and
  `crates/storage/storage-api/src/storage_manager.rs`

Machine integers are modelled as `Nat` with explicit reductions modulo
`2^16` where Rust performs `u16` arithmetic or `as u16` casts (release
semantics: wrapping).  The fixed 4096-byte array `[u8; PAGE_SIZE]` is
modelled as a total function `Nat → Nat` whose relevant domain is
`[0, PAGE_SIZE)`; every bounds check that Rust slicing performs before an
access is made explicit, so out-of-range indices are never consulted.
Every write stores a value reduced modulo 256, mirroring `u8` storage.
Fallible Rust code returning `Result` is modelled with `Res`; a Rust panic
(out-of-range slice indexing, or the absurd allocation following a `usize`
underflow) is the distinguished outcome `Res.panic`.  The distinct Rust
error enums (`BinaryError`, `HeaderError`, `SlotError`, `InsertError`,
`DeleteError`, `UpdateError`, `ReadRowError`) are related by lossless
`From` embeddings in the source, so they are flattened into the single
inductive `PErr` here; each constructor corresponds to exactly one Rust
variant.
-/

/-- Flattened error type covering all page-operation error variants of the
source (the Rust enums embed into one another losslessly via `From`). -/
inductive PErr where
  | bytesSliceSizeMismatch (expected fromOffset : Nat)
  | writeSliceSizeMismatch (src target : Nat)
  | overflow
  | headerSliceSizeMismatch (actual : Nat)
  | offsetArithmetic
  | slotRegionSizeMismatch (expectedSize actualSize : Nat)
  | slotSizeMismatch (expectedSize actualSize : Nat)
  | invalidSlot (slotIndex : Nat)
  | notEnoughSpace (rowLen pageFreeSpace : Nat)
  | cannotFindSpace (requiredSpace : Nat)
deriving DecidableEq, Repr

/-- Result of an embedded Rust computation: `ok`, an error propagated with
`?`, or a Rust panic (out-of-bounds slice indexing and the like). -/
inductive Res (α : Type) where
  | ok (a : α)
  | err (e : PErr)
  | panic
deriving DecidableEq, Repr

namespace Res

def bind {α β : Type} : Res α → (α → Res β) → Res β
  | .ok a, f => f a
  | .err e, _ => .err e
  | .panic, _ => .panic

instance : Monad Res where
  pure := .ok
  bind := Res.bind

def map {α β : Type} (f : α → β) : Res α → Res β
  | .ok a => .ok (f a)
  | .err e => .err e
  | .panic => .panic

def isPanic {α : Type} : Res α → Bool
  | .panic => true
  | _ => false

def isOk {α : Type} : Res α → Bool
  | .ok _ => true
  | _ => false

end Res

/-! ## Constants (`page/src/lib.rs`, `slot.rs`) -/

def PAGE_SIZE : Nat := 4096
def HEADER_SIZE : Nat := 96
def SLOT_SIZE : Nat := 4
def USIZE_MAX : Nat := 2 ^ 64 - 1

/-! ## Byte arrays and the little-endian codec (`binary-helpers/src/le.rs`)

A byte array is a total function; all accesses performed by the embedded
operations are guarded by the same bounds checks the Rust code performs
(array length is the compile-time constant `PAGE_SIZE`).  For the fixed
offsets used by header and slot accessors the `SliceSizeMismatch` branches
of `read_le`/`write_le` cannot fire, so readers and writers below are the
in-bounds semantics.  A `u16` value is stored as low byte then high byte. -/

def Bytes : Type := Nat → Nat

/-- Single byte store (`u8` truncation). -/
def upd (d : Bytes) (i v : Nat) : Bytes :=
  fun j => if j = i then v % 256 else d j

def readU16 (d : Bytes) (off : Nat) : Nat :=
  d off + 256 * d (off + 1)

def writeU16 (d : Bytes) (off v : Nat) : Bytes :=
  upd (upd d off v) (off + 1) (v / 256)

def writeU32 (d : Bytes) (off v : Nat) : Bytes :=
  upd (upd (upd (upd d off v) (off + 1) (v / 256)) (off + 2) (v / 65536))
    (off + 3) (v / 16777216)

/-- `dest[off .. off + src.length] = src` for a `Vec<u8>` source (Rust
`copy_from_slice`); callers check bounds first, mirroring the panicking
slice index of the source. -/
def writeRow (d : Bytes) (off : Nat) (src : List Nat) : Bytes :=
  fun j => if off ≤ j ∧ j < off + src.length then src.getD (j - off) 0 % 256 else d j

/-- `dest[off .. off+len] = src[srcOff .. srcOff+len]` (`copy_from_slice`
between two byte-array views). -/
def copyRange (dest : Bytes) (off : Nat) (src : Bytes) (srcOff len : Nat) : Bytes :=
  fun j => if off ≤ j ∧ j < off + len then src (srcOff + (j - off)) % 256 else dest j

/-- The byte list `d[off .. off+len]` (a Rust byte-slice view, materialised). -/
def sliceList (d : Bytes) (off len : Nat) : List Nat :=
  (List.range len).map (fun k => d (off + k))

/-- Wrapping `u16` addition (release-mode `+` on `u16`). -/
def wadd (a b : Nat) : Nat := (a + b) % 65536

/-- Wrapping `u16` subtraction (release-mode `-` on `u16`); agrees with
two's-complement wrapping for `a < 2^16`. -/
def wsub (a b : Nat) : Nat := (a + 65536 - b % 65536) % 65536

/-- `as u16` cast. -/
def w16 (v : Nat) : Nat := v % 65536

/-! ## Checked usize conversions (`binary-helpers/src/conversions.rs`) -/

def toU16chk (v : Nat) : Res Nat :=
  if v < 65536 then .ok v else .err .overflow

def toU32chk (v : Nat) : Res Nat :=
  if v < 4294967296 then .ok v else .err .overflow

/-! ## Page identifiers (`page_id.rs`) -/

structure PageId where
  fileId : Nat
  pageNumber : Nat
deriving DecidableEq, Repr

/-! ## The page (`page/api.rs`): a `PageId` plus the 4096-byte array. -/

structure Page where
  pageId : PageId
  data : Bytes

/-! ## Header accessors (`header.rs`): fixed little-endian offsets. -/

def SLOT_COUNT_OFF : Nat := 0
def FREE_START_OFF : Nat := 2
def FREE_END_OFF : Nat := 4
def FREE_SPACE_OFF : Nat := 6
def CAN_COMPACT_OFF : Nat := 8
def PAGE_NUMBER_OFF : Nat := 10
def PAGE_TYPE_OFF : Nat := 14

def getSlotCount (p : Page) : Nat := readU16 p.data SLOT_COUNT_OFF
def getFreeStart (p : Page) : Nat := readU16 p.data FREE_START_OFF
def getFreeEnd (p : Page) : Nat := readU16 p.data FREE_END_OFF
def getFreeSpace (p : Page) : Nat := readU16 p.data FREE_SPACE_OFF
def getCanCompact (p : Page) : Nat := readU16 p.data CAN_COMPACT_OFF

def setSlotCount (p : Page) (v : Nat) : Page :=
  { p with data := writeU16 p.data SLOT_COUNT_OFF v }
def setFreeStart (p : Page) (v : Nat) : Page :=
  { p with data := writeU16 p.data FREE_START_OFF v }
def setFreeEnd (p : Page) (v : Nat) : Page :=
  { p with data := writeU16 p.data FREE_END_OFF v }
def setFreeSpace (p : Page) (v : Nat) : Page :=
  { p with data := writeU16 p.data FREE_SPACE_OFF v }
def setCanCompact (p : Page) (v : Nat) : Page :=
  { p with data := writeU16 p.data CAN_COMPACT_OFF v }
def setPageNumber (p : Page) (v : Nat) : Page :=
  { p with data := writeU32 p.data PAGE_NUMBER_OFF v }
def setPageType (p : Page) (v : Nat) : Page :=
  { p with data := writeU16 p.data PAGE_TYPE_OFF v }

/-! ## Construction and initialization (`page/ctors.rs`, `page/api.rs`) -/

/-- `Page::new_zeroed`. -/
def newZeroed (pid : PageId) : Page :=
  { pageId := pid, data := fun _ => 0 }

/-- `HeaderMut::default` (`header.rs`): page number, `free_start`,
`free_end`, `free_space`, page type.  (`slot_count` and `can_compact` are
left as they are.) -/
def headerDefault (p : Page) (pageNumber pageType : Nat) : Page :=
  setPageType
    (setFreeSpace
      (setFreeEnd
        (setFreeStart (setPageNumber p pageNumber) HEADER_SIZE)
        (PAGE_SIZE - 1))
      (PAGE_SIZE - HEADER_SIZE))
    pageType

/-- `Page::initialize` (`page/api.rs`): zero the byte array, then apply the
header defaults.  The struct's own `page_id` field is not modified by the
source; only the header's `page_number` is set. -/
def initializePage (p : Page) (pid : PageId) (pageType : Nat) : Page :=
  headerDefault { p with data := fun _ => 0 } pid.pageNumber pageType

/-! ## Slot array (`slot_array.rs`, `page/internal.rs`)

The Rust code takes the slice `data[free_end+1 .. PAGE_SIZE]` (a panicking
operation when `free_end + 1 > PAGE_SIZE`), validates its length against
`slot_count * SLOT_SIZE`, and addresses slot `i` at region-relative
position `region_len - (i+1)*SLOT_SIZE`.  The slice is a view into the
page's bytes, so the model computes the same absolute positions. -/

/-- Length of the slot-array region after `slot_array_ref`/`slot_array_mut`
validation. -/
def slotRegionLen (p : Page) : Res Nat :=
  let fe := getFreeEnd p
  if fe + 1 > PAGE_SIZE then .panic
  else
    let rl := PAGE_SIZE - (fe + 1)
    if rl = SLOT_SIZE * getSlotCount p then .ok rl
    else .err (.slotRegionSizeMismatch (SLOT_SIZE * getSlotCount p) rl)

/-- `SlotArrayRef::slot_ref` given the validated region length: reverse
addressing (`get_slot_start` uses `checked_sub`, whose failure is
`InvalidSlot`), then the slot's `(offset, length)` little-endian fields. -/
def slotRefIn (p : Page) (regionLen i : Nat) : Res (Nat × Nat) :=
  if regionLen < (i + 1) * SLOT_SIZE then .err (.invalidSlot i)
  else
    let start := getFreeEnd p + 1 + (regionLen - (i + 1) * SLOT_SIZE)
    .ok (readU16 p.data start, readU16 p.data (start + 2))

def Page.slotRef (p : Page) (i : Nat) : Res (Nat × Nat) := do
  let rl ← slotRegionLen p
  slotRefIn p rl i

/-- `SlotArrayMut::set_slot` reached through `slot_array_mut`: writes the
slot's length then offset at the absolute position of slot `i`.  The panic
and `SlotRegionSizeMismatch` outcomes stem from `slot_array_mut`; the
`InvalidSlot` outcome stems from `slot_mut`'s range check. -/
def Page.setSlot (p : Page) (i off len : Nat) : Res Page := do
  let rl ← slotRegionLen p
  if rl < (i + 1) * SLOT_SIZE then .err (.invalidSlot i)
  else
    let start := getFreeEnd p + 1 + (rl - (i + 1) * SLOT_SIZE)
    .ok { p with data := writeU16 (writeU16 p.data (start + 2) len) start off }

/-- `SlotMut::set_length` alone (used by the shrink branch of
`update_internal`). -/
def Page.setSlotLengthOnly (p : Page) (i len : Nat) : Res Page := do
  let rl ← slotRegionLen p
  if rl < (i + 1) * SLOT_SIZE then .err (.invalidSlot i)
  else
    let start := getFreeEnd p + 1 + (rl - (i + 1) * SLOT_SIZE)
    .ok { p with data := writeU16 p.data (start + 2) len }

/-- `Page::is_slot_valid` (`page/internal.rs`): `length != 0 && offset != 0`. -/
def isSlotValid (s : Nat × Nat) : Bool := s.2 ≠ 0 && s.1 ≠ 0

/-! ## Reading a row (`page/read_row.rs`) -/

/-- `read_row_internal`: look up the slot, then return
`&data[offset .. offset+length]` — which is a Rust panic when the range end
exceeds the 4096-byte array. -/
def Page.row (p : Page) (i : Nat) : Res (List Nat) := do
  let s ← p.slotRef i
  let off := s.1
  let len := s.2
  if off + len > PAGE_SIZE then .panic
  else .ok (sliceList p.data off len)

/-! ## Insertion plan (`insertion_plan.rs`) -/

inductive InsertionOffset where
  | afterCompactionFreeStart
  | exact (pos : Nat)
deriving DecidableEq, Repr

inductive InsertionSlot where
  | new
  | reuse (i : Nat)
deriving DecidableEq, Repr

structure InsertionPlan where
  slot : InsertionSlot
  offset : InsertionOffset
deriving DecidableEq, Repr

/-! ## Insertion planning (`impls/plan_insert.rs`) -/

/-- Loop body of `get_insertion_slot`: scan logical indices `i, i+1, …`
(`remaining` indices left) for the first invalid slot.  The loop
`for slot_index in 0..slot_count` is run as structural recursion on the
number of remaining iterations. -/
def findReuseSlot (p : Page) (regionLen : Nat) : (i remaining : Nat) → Res InsertionSlot
  | _, 0 => .ok .new
  | i, remaining + 1 => do
    let s ← slotRefIn p regionLen i
    if isSlotValid s then findReuseSlot p regionLen (i + 1) remaining
    else .ok (.reuse i)

/-- `Page::get_insertion_slot`. -/
def getInsertionSlot (p : Page) : Res InsertionSlot := do
  let rl ← slotRegionLen p
  findReuseSlot p rl 0 (getSlotCount p)

/-- Extent-collection loop of `find_insertion_offset`: physical extents
`(start, end)` of the valid slots in slot-index order; a slot equal to
`treat_slot_len_as_zero` contributes `(start, start)`. -/
def collectExtents (p : Page) (regionLen : Nat) (ignore : Option Nat) :
    (i remaining : Nat) → List (Nat × Nat) → Res (List (Nat × Nat))
  | _, 0, acc => .ok acc
  | i, remaining + 1, acc => do
    let s ← slotRefIn p regionLen i
    if isSlotValid s then
      let start := s.1
      let e := if ignore = some i then start else start + s.2
      collectExtents p regionLen ignore (i + 1) remaining (acc ++ [(start, e)])
    else collectExtents p regionLen ignore (i + 1) remaining acc

/-- Stable insertion of an extent into a list sorted by start (model of the
stable `sort_by_key(|(start, _)| *start)`). -/
def insertByStart (x : Nat × Nat) : List (Nat × Nat) → List (Nat × Nat)
  | [] => [x]
  | y :: ys => if y.1 ≤ x.1 then y :: insertByStart x ys else x :: y :: ys

def sortByStart : List (Nat × Nat) → List (Nat × Nat)
  | [] => []
  | x :: xs => insertByStart x (sortByStart xs)

/-- The `windows(2)` gap scan: the first adjacent pair whose gap fits
`row_len` yields the first extent's end. -/
def firstGap (rowLen : Nat) : List (Nat × Nat) → Option Nat
  | (_, aEnd) :: (bStart, bEnd) :: rest =>
      if bStart ≥ aEnd ∧ bStart - aEnd ≥ rowLen then some aEnd
      else firstGap rowLen ((bStart, bEnd) :: rest)
  | _ => none

/-- `Page::find_insertion_offset` (`impls/plan_insert.rs`). -/
def findInsertionOffset (p : Page) (rowLen : Nat) (ignore : Option Nat) :
    Res InsertionOffset := do
  let rl ← slotRegionLen p
  let freeStart := getFreeStart p
  let freeEnd := getFreeEnd p
  let count := getSlotCount p
  if freeEnd - freeStart ≥ rowLen then .ok (.exact freeStart)
  else do
    let extents ← collectExtents p rl ignore 0 count []
    if extents.isEmpty then .ok .afterCompactionFreeStart
    else
      let sorted := sortByStart extents
      match firstGap rowLen sorted with
      | some pos => .ok (.exact pos)
      | none =>
        match sorted.getLast? with
        | none => .panic
        | some lastExt =>
          if freeEnd ≥ lastExt.2 ∧ freeEnd - lastExt.2 ≥ rowLen then
            .ok (.exact lastExt.2)
          else .ok .afterCompactionFreeStart

/-- `Page::plan_insert_internal` (`impls/plan_insert.rs`). -/
def Page.planInsert (p : Page) (rowLen : Nat) : Res InsertionPlan := do
  let slot ← getInsertionSlot p
  let pageFreeSpace := getFreeSpace p
  let needsNewSlot := slot = InsertionSlot.new
  let requiredTotal := rowLen + if needsNewSlot then SLOT_SIZE else 0
  if pageFreeSpace < requiredTotal then
    .err (.notEnoughSpace rowLen pageFreeSpace)
  else do
    let offset ← findInsertionOffset p rowLen none
    .ok ⟨slot, offset⟩

/-! ## Compaction (`page/internal.rs`) -/

/-- Loop body of `Page::compact`: copy each valid row into the scratch
buffer (of length `bufLen`) at the running write head and point its slot at
the future location `HEADER_SIZE + write_head`.  The slice-bound checks of
the source are explicit panics. -/
def compactLoop (bufLen : Nat) :
    (i remaining : Nat) → Page → Bytes → Nat → Res (Page × Bytes × Nat)
  | _, 0, p, buf, wh => .ok (p, buf, wh)
  | i, remaining + 1, p, buf, wh => do
    let s ← p.slotRef i
    if isSlotValid s then
      let so := s.1
      let sl := s.2
      if so + sl > PAGE_SIZE then .panic
      else if wh + sl > bufLen then .panic
      else do
        let buf := copyRange buf wh p.data so sl
        let p ← p.setSlot i (w16 (HEADER_SIZE + wh)) (w16 sl)
        compactLoop bufLen (i + 1) remaining p buf (wh + sl)
    else compactLoop bufLen (i + 1) remaining p buf wh

/-- `Page::compact` (`page/internal.rs`).  The scratch buffer is sized
`free_end - HEADER_SIZE`; a usize underflow in `end - start` (and the
resulting absurd allocation) is modelled as a panic.  Note that
`can_compact` is not touched. -/
def Page.compact (p : Page) : Res Page := do
  let endd := getFreeEnd p
  if endd < HEADER_SIZE then .panic
  else do
    let bufLen := endd - HEADER_SIZE
    let total := getSlotCount p
    let r ← compactLoop bufLen 0 total p (fun _ => 0) 0
    let p := r.1
    let buf := r.2.1
    let wh := r.2.2
    if HEADER_SIZE + wh > PAGE_SIZE then .panic
    else
      let p := { p with data := copyRange p.data HEADER_SIZE buf 0 wh }
      .ok (setFreeStart p (w16 (HEADER_SIZE + wh)))

/-! ## Insertion (`page/insert.rs`) -/

/-- `Page::insert_row_unsorted_internal`.  Note that the final `set_slot`
call's `Result` is discarded by the source (no `?`), while the
`slot_array_mut()?` part still propagates. -/
def Page.insertHeap (p : Page) (plan : InsertionPlan) (bytes : List Nat) :
    Res Page := do
  let p ← match plan.offset with
    | .afterCompactionFreeStart => p.compact
    | .exact _ => .ok p
  let currentFreeStart := getFreeStart p
  let startOffset := match plan.offset with
    | .exact pos => pos
    | .afterCompactionFreeStart => currentFreeStart
  let insertingAtFreeStart := startOffset = currentFreeStart
  let oldSlotCount := getSlotCount p
  let (slotIndex, insertingNewSlot) := match plan.slot with
    | .reuse i => (i, false)
    | .new => (oldSlotCount, true)
  let p := if insertingNewSlot then
      let q := setSlotCount p (w16 (oldSlotCount + 1))
      setFreeEnd q (wsub (getFreeEnd q) SLOT_SIZE)
    else p
  let p := if insertingAtFreeStart then
      setFreeStart p (wadd (getFreeStart p) (w16 bytes.length))
    else p
  let p := setFreeSpace p
    (wsub (wsub (getFreeSpace p) (w16 bytes.length))
      (if insertingNewSlot then SLOT_SIZE else 0))
  if startOffset + bytes.length > PAGE_SIZE then .panic
  else
    let p := { p with data := writeRow p.data startOffset bytes }
    match p.setSlot slotIndex (w16 startOffset) (w16 bytes.length) with
    | .ok q => .ok q
    | .err (.invalidSlot _) => .ok p
    | .err e => .err e
    | .panic => .panic

/-! ## Deletion (`page/delete.rs`) -/

/-- Loop of `try_to_find_new_free_start`: track the valid slot with the
highest offset and the second-highest offset.  `last_idx` is initialised to
`0usize` and compared against `usize::MAX` exactly as in the source. -/
def findFreeStartLoop (p : Page) (regionLen : Nat) :
    (i remaining : Nat) → Nat × Nat × Nat × Nat × Nat →
    Res (Nat × Nat × Nat × Nat × Nat)
  | _, 0, st => .ok st
  | i, remaining + 1, (lastOffset, lastLen, lastIdx, ntlOffset, ntlLen) => do
    let s ← slotRefIn p regionLen i
    if isSlotValid s then
      let offset := s.1
      let len := s.2
      if lastIdx = USIZE_MAX ∨ offset ≥ lastOffset then
        findFreeStartLoop p regionLen (i + 1) remaining
          (offset, len, i, lastOffset, lastLen)
      else if offset > ntlOffset ∧ offset < lastOffset then
        findFreeStartLoop p regionLen (i + 1) remaining
          (lastOffset, lastLen, lastIdx, offset, len)
      else
        findFreeStartLoop p regionLen (i + 1) remaining
          (lastOffset, lastLen, lastIdx, ntlOffset, ntlLen)
    else
      findFreeStartLoop p regionLen (i + 1) remaining
        (lastOffset, lastLen, lastIdx, ntlOffset, ntlLen)

/-- `Page::try_to_find_new_free_start`. -/
def tryToFindNewFreeStart (p : Page) (deletedIdx : Nat) : Res (Option Nat) := do
  let rl ← slotRegionLen p
  let count := getSlotCount p
  let r ← findFreeStartLoop p rl 0 count (0, 0, 0, 0, 0)
  let lastIdx := r.2.2.1
  let ntlOffset := r.2.2.2.1
  let ntlLen := r.2.2.2.2
  if lastIdx = USIZE_MAX then .ok none
  else if lastIdx ≠ deletedIdx then .ok none
  else
    .ok (some (if ntlOffset + ntlLen = 0 then HEADER_SIZE else ntlOffset + ntlLen))

/-- `Page::delete_row_internal` (`page/delete.rs`). -/
def Page.deleteRow (p : Page) (slotIndex : Nat) (compactRequested : Bool) :
    Res Page := do
  let s0 ← p.slotRef slotIndex
  if isSlotValid s0 then do
    let canReset ← tryToFindNewFreeStart p slotIndex
    let s ← p.slotRef slotIndex
    let rowSize := s.2
    let p ← p.setSlot slotIndex 0 0
    let p := setFreeSpace p (wadd (getFreeSpace p) rowSize)
    let p := match canReset with
      | some newFreeStart => setFreeStart p (w16 newFreeStart)
      | none => setCanCompact p 1
    if compactRequested then p.compact else .ok p
  else .err (.invalidSlot slotIndex)

/-! ## Update (`page/update.rs`) -/

/-- `Page::update_internal`. -/
def Page.updateRow (p : Page) (oldIdx : Nat) (newRow : List Nat) : Res Page := do
  let freeSpace := getFreeSpace p
  let _ ← toU32chk oldIdx
  let s ← p.slotRef oldIdx
  if isSlotValid s then do
    let oldLen := s.2
    let oldOff := s.1
    let currentFreeSpace := freeSpace + oldLen
    if newRow.length > currentFreeSpace then
      .err (.notEnoughSpace newRow.length currentFreeSpace)
    else do
      let r ←
        if newRow.length < oldLen ∨ newRow.length = oldLen then
          .ok (oldOff, false, p)
        else do
          let io ← findInsertionOffset p newRow.length (some oldIdx)
          match io with
          | .exact startOffset =>
            .ok (startOffset, startOffset == getFreeStart p, p)
          | .afterCompactionFreeStart => do
            let p ← p.deleteRow oldIdx true
            .ok (getFreeStart p, true, p)
      let insertionOffset := r.1
      let insertAtFreeStart := r.2.1
      let p := r.2.2
      if insertionOffset + newRow.length > PAGE_SIZE then
        .err (.notEnoughSpace newRow.length currentFreeSpace)
      else
        let p := { p with data := writeRow p.data insertionOffset newRow }
        if newRow.length = oldLen then .ok p
        else if newRow.length < oldLen then do
          let len16 ← toU16chk newRow.length
          let p ← p.setSlotLengthOnly oldIdx len16
          let newFreeSpace := freeSpace + oldLen - newRow.length
          let nfs16 ← toU16chk newFreeSpace
          .ok (setFreeSpace p nfs16)
        else do
          let len16 ← toU16chk newRow.length
          let off16 ← toU16chk insertionOffset
          let p ← p.setSlot oldIdx off16 len16
          let newFreeSpace := freeSpace + oldLen - newRow.length
          let nfs16 ← toU16chk newFreeSpace
          let p := setFreeSpace p nfs16
          if insertAtFreeStart then do
            let nfs ← toU16chk (insertionOffset + newRow.length)
            .ok (setFreeStart p nfs)
          else .ok p
  else .err (.invalidSlot oldIdx)

/-! ## Specification-side insertion planner (for the refinement claim)

These definitions follow the specification's description of
`plan_insert` word by word, to be compared with the embedded
`Page.planInsert` above: slot choice is the first invalid logical index in
`0..slot_count` (else `New`); the capacity check is
`free_space < row_len + (SLOT_SIZE if New else 0)`; the offset is the first
hit of fast path / first sorted gap / tail gap, else
`AfterCompactionFreeStart` (also when no valid extents exist).  Slot `i` is
read at its documented physical location
`PAGE_SIZE − (i+1)·SLOT_SIZE`. -/

def specSlotAt (p : Page) (i : Nat) : Nat × Nat :=
  (readU16 p.data (PAGE_SIZE - (i + 1) * SLOT_SIZE),
   readU16 p.data (PAGE_SIZE - (i + 1) * SLOT_SIZE + 2))

def specSlotChoice (p : Page) : InsertionSlot :=
  match (List.range (getSlotCount p)).find?
      (fun i => ! isSlotValid (specSlotAt p i)) with
  | some i => .reuse i
  | none => .new

def specExtents (p : Page) : List (Nat × Nat) :=
  ((List.range (getSlotCount p)).filter
      (fun i => isSlotValid (specSlotAt p i))).map
    (fun i => ((specSlotAt p i).1, (specSlotAt p i).1 + (specSlotAt p i).2))

/-- The claim's gap condition written literally:
`w[1].start − w[0].end ≥ row_len` (truncated natural subtraction). -/
def specFirstGap (rowLen : Nat) : List (Nat × Nat) → Option Nat
  | (_, aEnd) :: (bStart, bEnd) :: rest =>
      if bStart - aEnd ≥ rowLen then some aEnd
      else specFirstGap rowLen ((bStart, bEnd) :: rest)
  | _ => none

def specOffsetChoice (p : Page) (rowLen : Nat) : InsertionOffset :=
  if getFreeEnd p - getFreeStart p ≥ rowLen then .exact (getFreeStart p)
  else
    let sorted := sortByStart (specExtents p)
    match specFirstGap rowLen sorted with
    | some pos => .exact pos
    | none =>
      match sorted.getLast? with
      | none => .afterCompactionFreeStart
      | some lastExt =>
        if getFreeEnd p - lastExt.2 ≥ rowLen then .exact lastExt.2
        else .afterCompactionFreeStart

def specPlanInsert (p : Page) (rowLen : Nat) : Res InsertionPlan :=
  let slot := specSlotChoice p
  let required := rowLen + if slot = InsertionSlot.new then SLOT_SIZE else 0
  if getFreeSpace p < required then
    .err (.notEnoughSpace rowLen (getFreeSpace p))
  else .ok ⟨slot, specOffsetChoice p rowLen⟩

/-! ## Concrete scenarios

Closed operation sequences on a freshly initialized heap page, used for
concrete evaluations of the embedded operations. -/

def pid0 : PageId := ⟨1, 0⟩

/-- `initialize(PageId(1,0), Unsorted)` on a zeroed page. -/
def freshPage : Page := initializePage (newZeroed pid0) pid0 1

/-- `plan_insert(row.len())` followed by `insert_heap(plan, row)`. -/
def planAndInsert (p : Page) (row : List Nat) : Res Page := do
  let plan ← p.planInsert row.length
  p.insertHeap plan row

/-- The five bookkeeping header fields:
`(slot_count, free_start, free_end, free_space, can_compact)`. -/
def headerView (p : Page) : Nat × Nat × Nat × Nat × Nat :=
  (getSlotCount p, getFreeStart p, getFreeEnd p, getFreeSpace p, getCanCompact p)

/-- Operation sequence leading to the fast-path boundary state: insert
seven 520-byte rows, then shrink the first one to 500 bytes (update),
leaving `free_end − free_start = 331` (`3736..4067`) with a 20-byte hole
and 352 bytes of `free_space`. -/
def overlapSetup : Res Page := do
  let p ← planAndInsert freshPage (List.replicate 520 1)
  let p ← planAndInsert p (List.replicate 520 1)
  let p ← planAndInsert p (List.replicate 520 1)
  let p ← planAndInsert p (List.replicate 520 1)
  let p ← planAndInsert p (List.replicate 520 1)
  let p ← planAndInsert p (List.replicate 520 1)
  let p ← planAndInsert p (List.replicate 520 1)
  p.updateRow 0 (List.replicate 500 2)

/-- The same sequence followed by a 331-byte insert: the planner's fast
path accepts `free_end − free_start ≥ row_len` without reserving
`SLOT_SIZE` for the new slot. -/
def overlapTrace : Res Page :=
  Res.bind overlapSetup (fun p => planAndInsert p (List.replicate 331 7))

/-- Insert rows of 100 and 50 bytes, then `delete_row(0, true)`
(delete with compaction requested). -/
def deleteCompactTrace : Res Page := do
  let p ← planAndInsert freshPage (List.replicate 100 1)
  let p ← planAndInsert p (List.replicate 50 2)
  p.deleteRow 0 true

/-- Insert a 100-byte row, then `delete_row(0, false)`: slot 0 becomes
invalid `(0, 0)`. -/
def deletedSlotTrace : Res Page := do
  let p ← planAndInsert freshPage (List.replicate 100 1)
  p.deleteRow 0 false

/-- The page produced by `deletedSlotTrace` (the trace succeeds). -/
def deletedSlotPage : Page :=
  match deletedSlotTrace with
  | .ok p => p
  | _ => freshPage

/-- A well-formed page whose single valid row fills the tuple space
completely: `slot_count = 1`, `free_end = 4091`, `free_start = 4092`,
`free_space = 0`, slot 0 = `(96, 3996)` stored at bytes 4092–4095. -/
def fullPage : Page :=
  { pageId := pid0,
    data := writeU16 (writeU16 (writeU16 (writeU16 (writeU16 (writeU16
      (fun _ => 0) SLOT_COUNT_OFF 1) FREE_START_OFF 4092) FREE_END_OFF 4091)
      FREE_SPACE_OFF 0) 4092 96) 4094 3996 }

/-- A corrupted page (reachable through `data_mut` or bytes loaded from
disk): `slot_count = 1`, `free_end = 4091`, slot 0 = `(4000, 200)` whose
range end `4200` exceeds `PAGE_SIZE`. -/
def corruptPage : Page :=
  { pageId := pid0,
    data := writeU16 (writeU16 (writeU16 (writeU16
      (fun _ => 0) SLOT_COUNT_OFF 1) FREE_END_OFF 4091) 4092 4000) 4094 200 }

/-! ## Compaction bookkeeping

`prefixLen p i` is the total length of the valid slots with index below
`i` — the compaction write head when the loop reaches slot `i`. -/

def prefixLen (p : Page) (i : Nat) : Nat :=
  (((List.range i).filter (fun j => isSlotValid (specSlotAt p j))).map
    (fun j => (specSlotAt p j).2)).sum

def totalValidLen (p : Page) : Nat := prefixLen p (getSlotCount p)

/-- Well-formedness of a page, per the specification's structural
invariants: consistent slot region, `HEADER_SIZE ≤ free_start ≤
free_end + 1`, byte values below 256, and every valid slot's extent inside
`[HEADER_SIZE, free_start)`. -/
def pageWF (p : Page) : Prop :=
  getFreeEnd p + 1 + SLOT_SIZE * getSlotCount p = PAGE_SIZE ∧
  HEADER_SIZE ≤ getFreeStart p ∧ getFreeStart p ≤ getFreeEnd p + 1 ∧
  (∀ k, p.data k < 256) ∧
  (∀ i, i < getSlotCount p → isSlotValid (specSlotAt p i) = true →
    HEADER_SIZE ≤ (specSlotAt p i).1 ∧
    (specSlotAt p i).1 + (specSlotAt p i).2 ≤ getFreeStart p)

/-- A fragmented two-row page used as a concrete compaction witness:
`slot_count = 2`, `free_end = 4087`, `free_start = 300`, slot 0 =
`(200, 10)`, slot 1 = `(96, 50)` (physical order differs from slot order),
rows filled with the bytes 9 and 8. -/
def fragPage : Page :=
  { pageId := pid0,
    data := writeU16 (writeU16 (writeU16 (writeU16 (writeU16 (writeU16
      (fun k => if 200 ≤ k ∧ k < 210 then 9 else if 96 ≤ k ∧ k < 146 then 8 else 0)
      SLOT_COUNT_OFF 2) FREE_START_OFF 300) FREE_END_OFF 4087)
      4092 200) 4094 10) 4088 96 |> (writeU16 · 4090 50) }

/-! ## Buffer pool, sequential semantics (`buffer/src/buffer.rs`, `frame.rs`)

The buffer manager is generic over the `FileManager` trait; a file manager
is modelled as a function receiving the destination byte array (the
frame's page bytes) and returning the success flag together with the bytes
it left in the destination (`read_page(page_id, dest) -> bool` may fill
`dest` partially before failing, as `DiskFileManager::read_at` can).  The
definitions below are the single-threaded semantics of
`allocate_new_page` and of `get_or_load_buffered_page` (each Rust
lock-protected section executes atomically; with no concurrent threads the
`try_write` probes of `claim_free_frame` always succeed). -/

inductive PageState where
  | loading
  | ready (frameId : Nat)
deriving DecidableEq, Repr

inductive BufferError where
  | bufferFull
  | ioReadFailed (pageId : PageId)
deriving DecidableEq, Repr

structure BufferFrame where
  framePageId : Option PageId
  page : Page
  pinCount : Nat
  dirty : Bool

instance : Inhabited BufferFrame :=
  ⟨⟨none, newZeroed ⟨0, 0⟩, 0, false⟩⟩

structure BufferManager where
  frames : List BufferFrame
  pageMap : List (PageId × PageState)

def FileManagerM : Type := PageId → Bytes → (Bool × Bytes)

/-- `BufferManager::new`: `pool_size` default frames (page id `None`,
zeroed page, pin 0, clean). -/
def BufferManager.new (poolSize : Nat) : BufferManager :=
  { frames := List.replicate poolSize default, pageMap := [] }

/-- Lookup in the page map (`HashMap::get`). -/
def mapLookup (m : List (PageId × PageState)) (pid : PageId) : Option PageState :=
  (m.find? (fun e => e.1 = pid)).map (·.2)

/-- `claim_free_frame`: scan in increasing index order; the first frame
with `page_id == None` is claimed (page id set, pin count 1, dirty
cleared). -/
def claimFreeFrame (forPageId : PageId) : List BufferFrame →
    Option (Nat × List BufferFrame)
  | [] => none
  | f :: rest =>
    if f.framePageId = none then
      some (0, { f with framePageId := some forPageId,
                        pinCount := 1, dirty := false } :: rest)
    else
      match claimFreeFrame forPageId rest with
      | some (j, rest2) => some (j + 1, f :: rest2)
      | none => none

/-- `allocate_new_page`: claim a free frame or fail with `BufferFull`;
insert the page-map entry directly in `Ready(frame_id)`; return the frame
(on which the caller receives the exclusive latch). -/
def allocateNewPage (bm : BufferManager) (pid : PageId) :
    Except BufferError (Nat × BufferManager) :=
  match claimFreeFrame pid bm.frames with
  | none => .error .bufferFull
  | some (fid, frames2) =>
    .ok (fid, { frames := frames2,
                pageMap := (pid, PageState.ready fid) :: bm.pageMap })

/-- `StorageErrors` of the storage facade (`storage_manager.rs`). -/
inductive StorageErrors where
  | readPage
  | newPage
deriving DecidableEq, Repr

/-- `StorageManager::new_page`: delegate to `allocate_new_page`, mapping
any buffer error to `StorageErrors::NewPage`. -/
def storageNewPage (bm : BufferManager) (pid : PageId) :
    Except StorageErrors (Nat × BufferManager) :=
  match allocateNewPage bm pid with
  | .error _ => .error .newPage
  | .ok x => .ok x

/-- Result of a sequential `get_or_load_buffered_page` call: a latch on a
frame, an error, or blocking forever in `wait_until_ready` (the entry is
`Loading` and no other thread will ever publish it). -/
inductive SeqResult where
  | frame (fid : Nat) (bm : BufferManager)
  | errorB (e : BufferError) (bm : BufferManager)
  | blocked

def SeqResult.errOf : SeqResult → Option BufferError
  | .errorB e _ => some e
  | _ => none

def frameAt (bm : BufferManager) (fid : Nat) : BufferFrame :=
  bm.frames.getD fid default

/-- Sequential `get_or_load_buffered_page` (`read_page` /
`read_page_mut`): probe the map; on a hit wait for `Ready`; on a miss
insert `Loading`, claim a frame, let the file manager fill the frame's
page bytes, and either publish `Ready(fid)` or roll back the frame claim
and return `IoReadFailed` — leaving the map entry `Loading`. -/
def getOrLoadBufferedPage (fm : FileManagerM) (bm : BufferManager)
    (pid : PageId) : SeqResult :=
  match mapLookup bm.pageMap pid with
  | some (.ready fid) => .frame fid bm
  | some .loading => .blocked
  | none =>
    let m1 := (pid, PageState.loading) :: bm.pageMap
    match claimFreeFrame pid bm.frames with
    | none => .errorB .bufferFull { frames := bm.frames, pageMap := m1 }
    | some (fid, frames2) =>
      let fr := frames2.getD fid default
      let r := fm pid fr.page.data
      if r.1 then
        let fr2 := { fr with page := { pageId := pid, data := r.2 } }
        .frame fid { frames := frames2.set fid fr2,
                     pageMap := (pid, PageState.ready fid) :: m1 }
      else
        let fr2 := { fr with framePageId := none,
                             page := { fr.page with data := r.2 } }
        .errorB (.ioReadFailed pid)
          { frames := frames2.set fid fr2, pageMap := m1 }

/-- A file manager behaviour allowed by the `FileManager` contract and
exhibited by `DiskFileManager` on a short positional read: one byte is
written into the destination before the read is reported failed. -/
def partialFailFm : FileManagerM := fun _ d => (false, upd d 0 5)

def pidA : PageId := ⟨1, 0⟩
def pidB : PageId := ⟨1, 1⟩

/-- The buffer state after a failed cold-cache load of `pidA` into a
one-frame pool. -/
def rolledBackBm : BufferManager :=
  match getOrLoadBufferedPage partialFailFm (BufferManager.new 1) pidA with
  | .errorB _ bm => bm
  | .frame _ bm => bm
  | .blocked => BufferManager.new 1

/-- The buffer state (and frame) returned by `new_page(pidB)` on
`rolledBackBm`. -/
def allocAfterRollback : BufferManager :=
  match allocateNewPage rolledBackBm pidB with
  | .ok (_, bm) => bm
  | .error _ => rolledBackBm

/-! ## Buffer pool, concurrent loader protocol (`buffer/src/buffer.rs`)

The cache-miss coordination for a single `PageId` `p` under `N`
concurrently calling threads, as an interleaving transition system.  Each
Rust lock-protected section is one atomic step: the read-locked map probe,
the write-locked re-check / `Loading` insert, one `wait_until_ready`
wake-up test, the free-frame claim, the file-manager read (with its
success or rollback), and the `Ready` publish with `notify_all`.  The
shared state records which thread inserted the `Loading` entry and the log
of file-manager `read_page` invocations for `p`; `ioOk` is the (fixed)
result the file manager returns for `p`. -/

inductive TPC where
  | start
  | recheck
  | waiting
  | claiming
  | reading (fid : Nat)
  | publishing (fid : Nat)
  | doneFrame (fid : Nat)
  | doneBufferFull
  | doneIoFailed (pid : PageId)
deriving DecidableEq, Repr

structure ProtoShared where
  entry : Option PageState
  frames : List (Option PageId)
  readerLog : List Nat
  loader : Option Nat
deriving DecidableEq, Repr

structure ProtoConfig where
  shared : ProtoShared
  threads : List TPC
deriving DecidableEq, Repr

/-- First frame index whose page-id slot is `None`. -/
def firstFree : List (Option PageId) → Option Nat
  | [] => none
  | none :: _ => some 0
  | some _ :: rest => (firstFree rest).map (· + 1)

/-- One atomic step of a thread whose program counter is `pc`, acting on
the shared state `sh` (`t` is the thread's own index, recorded in the
loader field and the reader log).  `none` means the thread has no enabled
step (it is blocked on the condition variable or has returned). -/
def protoStepParts (p : PageId) (ioOk : Bool) (sh : ProtoShared)
    (pc : TPC) (t : Nat) : Option (ProtoShared × TPC) :=
  match pc with
  | .start =>
    match sh.entry with
    | some _ => some (sh, .waiting)
    | none => some (sh, .recheck)
  | .recheck =>
    match sh.entry with
    | some _ => some (sh, .waiting)
    | none => some ({ sh with entry := some .loading, loader := some t },
                    .claiming)
  | .waiting =>
    match sh.entry with
    | some (.ready fid) => some (sh, .doneFrame fid)
    | _ => none
  | .claiming =>
    match firstFree sh.frames with
    | some fid =>
      some ({ sh with frames := sh.frames.set fid (some p) }, .reading fid)
    | none => some (sh, .doneBufferFull)
  | .reading fid =>
    if ioOk then
      some ({ sh with readerLog := sh.readerLog ++ [t] }, .publishing fid)
    else
      some ({ sh with readerLog := sh.readerLog ++ [t],
                      frames := sh.frames.set fid none }, .doneIoFailed p)
  | .publishing fid =>
    some ({ sh with entry := some (.ready fid) }, .doneFrame fid)
  | .doneFrame _ => none
  | .doneBufferFull => none
  | .doneIoFailed _ => none

/-- One atomic step of thread `t` running `read_page(p)`. -/
def protoStep (p : PageId) (ioOk : Bool) (c : ProtoConfig) (t : Nat) :
    Option ProtoConfig :=
  match c.threads.get? t with
  | none => none
  | some pc =>
    match protoStepParts p ioOk c.shared pc t with
    | none => none
    | some (sh2, pc2) => some ⟨sh2, c.threads.set t pc2⟩

def ProtoStepRel (p : PageId) (ioOk : Bool) (c c2 : ProtoConfig) : Prop :=
  ∃ t, protoStep p ioOk c t = some c2

/-- Cold-cache initial configuration: empty map entry, `m` free frames,
`n` threads about to call `read_page(p)`. -/
def protoInit (m n : Nat) : ProtoConfig :=
  { shared := { entry := none, frames := List.replicate m none,
                readerLog := [], loader := none },
    threads := List.replicate n .start }

def ProtoReachable (p : PageId) (ioOk : Bool) (m n : Nat)
    (c : ProtoConfig) : Prop :=
  Relation.ReflTransGen (ProtoStepRel p ioOk) (protoInit m n) c

/-- The protocol invariant: single loader, attributed reads, consistent
entry state, and (on a failing file manager) no publication ever. -/
structure ProtoInv (p : PageId) (ioOk : Bool) (n : Nat) (c : ProtoConfig) :
    Prop where
  tlen : c.threads.length = n
  loaderish : ∀ t pc, c.threads.get? t = some pc →
    (pc = .claiming ∨ (∃ f, pc = .reading f) ∨ (∃ f, pc = .publishing f) ∨
      pc = .doneBufferFull ∨ (∃ q, pc = .doneIoFailed q)) →
    c.shared.loader = some t
  loaderNone : c.shared.loader = none →
    c.shared.entry = none ∧ c.shared.readerLog = []
  entryNone : c.shared.entry = none → c.shared.loader = none
  loaderSome : ∀ t, c.shared.loader = some t → ∃ pc,
    c.threads.get? t = some pc ∧
    ((c.shared.readerLog = [] ∧ (pc = .claiming ∨ (∃ f, pc = .reading f) ∨
        pc = .doneBufferFull)) ∨
     (c.shared.readerLog = [t] ∧ ((∃ f, pc = .publishing f) ∨
        (∃ q, pc = .doneIoFailed q) ∨ (∃ f, pc = .doneFrame f))))
  loaderEntry : ∀ t pc, c.shared.loader = some t →
    c.threads.get? t = some pc →
    (pc = .claiming ∨ (∃ f, pc = .reading f) ∨ (∃ f, pc = .publishing f)) →
    c.shared.entry = some .loading
  doneEntry : ∀ i f, c.threads.get? i = some (.doneFrame f) →
    c.shared.entry = some (.ready f)
  readyLog : ∀ f, c.shared.entry = some (.ready f) →
    ∃ t, c.shared.loader = some t ∧ c.shared.readerLog = [t]
  failEntry : ∀ i q, c.threads.get? i = some (.doneIoFailed q) →
    q = p ∧ c.shared.entry = some .loading
  framesClean : ∀ j q, c.shared.frames.get? j = some (some q) →
    q = p ∧ ∃ t pc, c.shared.loader = some t ∧ c.threads.get? t = some pc ∧
      (pc = .reading j ∨ pc = .publishing j ∨ pc = .doneFrame j)
  noPubIfFail : ioOk = false → ∀ t f,
    c.threads.get? t ≠ some (.publishing f) ∧
    c.threads.get? t ≠ some (.doneFrame f)
  noReadyIfFail : ioOk = false → ∀ f, c.shared.entry ≠ some (.ready f)


/-- Concrete interleavings used as witnesses: two threads, a one-frame
pool.  `c8w*` is the succeeding-load schedule (thread 0 loads and
publishes, thread 1 waits and adopts); `c9w*` is the failing-load
schedule (thread 0's read fails while thread 1 waits). -/
def c8w0 : ProtoConfig := protoInit 1 2
def c8w1 : ProtoConfig := (protoStep pidA true c8w0 0).getD c8w0
def c8w2 : ProtoConfig := (protoStep pidA true c8w1 0).getD c8w1
def c8w3 : ProtoConfig := (protoStep pidA true c8w2 1).getD c8w2
def c8w4 : ProtoConfig := (protoStep pidA true c8w3 0).getD c8w3
def c8w5 : ProtoConfig := (protoStep pidA true c8w4 0).getD c8w4
def c8w6 : ProtoConfig := (protoStep pidA true c8w5 0).getD c8w5
def c8w7 : ProtoConfig := (protoStep pidA true c8w6 1).getD c8w6

def c9w0 : ProtoConfig := protoInit 1 2
def c9w1 : ProtoConfig := (protoStep pidA false c9w0 0).getD c9w0
def c9w2 : ProtoConfig := (protoStep pidA false c9w1 0).getD c9w1
def c9w3 : ProtoConfig := (protoStep pidA false c9w2 1).getD c9w2
def c9w4 : ProtoConfig := (protoStep pidA false c9w3 0).getD c9w3
def c9w5 : ProtoConfig := (protoStep pidA false c9w4 0).getD c9w4

/-!
# Theorems

Helper lemmas first, then one theorem (plus counterexample / witness
theorems) per specification claim.
-/

set_option maxRecDepth 1000000

@[simp] theorem Res.bind_ok {α β : Type} (a : α) (f : α → Res β) :
    Res.bind (.ok a) f = f a := rfl

@[simp] theorem Res.bind_err {α β : Type} (e : PErr) (f : α → Res β) :
    Res.bind (.err e) f = .err e := rfl

@[simp] theorem Res.bind_panic {α β : Type} (f : α → Res β) :
    Res.bind .panic f = .panic := rfl

@[simp] theorem Res.pure_eq_ok {α : Type} (a : α) : (pure a : Res α) = .ok a := rfl

@[simp] theorem Res.monad_bind_eq_bind {α β : Type} (x : Res α) (f : α → Res β) :
    x >>= f = Res.bind x f := rfl

@[simp] theorem Res.map_ok {α β : Type} (f : α → β) (a : α) :
    Res.map f (.ok a) = .ok (f a) := rfl

/-- C1 evaluation: the operation sequence `overlapTrace` (initialize;
seven successful plan/insert pairs; one successful shrink update; one
successful plan/insert pair) ends with header fields `slot_count = 8`,
`free_start = 4067`, `free_end = 4063`: the reachable state violates
`free_start ≤ free_end + 1` (4067 > 4064), contradicting the claimed
invariant, while the other two claimed equations still hold
(4064 + 4·8 = 4096 and 3951 + 17 + 32 = 4000). -/
theorem c1_invariant_violated_eval :
    overlapTrace.map headerView = .ok (8, 4067, 4063, 17, 0) ∧
    ¬ (4067 ≤ 4063 + 1) := by
  constructor
  · show overlapTrace.map headerView = .ok (8, 4067, 4063, 17, 0)
    decide
  · decide

/-- C3 evaluation: on `overlapSetup`, `plan_insert(331)` returns
`slot = New, offset = Exact(3736)` and the page has 352 bytes of free
space, yet after the successful `insert_heap` the designated slot index
(the pre-insert `slot_count`, i.e. 7) reads back the inserted bytes with
the last three replaced by `[152, 14, 75]` — the new slot entry (offset
`3736` = `152 + 256·14`, length low byte `75`) overwrote the row's tail —
instead of the inserted `replicate 331 7`. -/
theorem c3_roundtrip_violated_eval :
    overlapSetup.bind (fun p => p.planInsert 331) =
      .ok ⟨.new, .exact 3736⟩ ∧
    overlapTrace.bind (fun p => p.row 7) =
      .ok (List.replicate 328 7 ++ [152, 14, 75]) ∧
    (Res.ok (List.replicate 328 7 ++ [152, 14, 75]) : Res (List Nat)) ≠
      .ok (List.replicate 331 7) := by
  refine ⟨?_, ?_, ?_⟩
  · show overlapSetup.bind (fun p => p.planInsert 331) = .ok ⟨.new, .exact 3736⟩
    decide
  · show overlapTrace.bind (fun p => p.row 7) =
      .ok (List.replicate 328 7 ++ [152, 14, 75])
    decide
  · decide

/-- C5 counterexample: after inserting rows of 100 and 50 bytes and
running `delete_row(0, true)` — which sets `can_compact := 1` and then
compacts — the page still has `can_compact = 1`: `compact()` does not clear
the flag to 0 as the claim states. -/
theorem c5_can_compact_not_cleared :
    deleteCompactTrace.map getCanCompact = .ok 1 := by
  show deleteCompactTrace.map getCanCompact = .ok 1
  decide

/-- C6 counterexample: after inserting a 100-byte row and deleting it,
slot 0 is invalid (`offset = 0`, `length = 0`), yet `row(0)` returns
`Ok` with the empty byte slice `data[0..0]` instead of failing with
`InvalidSlot`. -/
theorem c6_invalid_slot_reads_ok :
    deletedSlotTrace.bind (fun p => p.slotRef 0) = .ok (0, 0) ∧
    deletedSlotTrace.bind (fun p => p.row 0) = .ok [] := by
  constructor
  · show deletedSlotTrace.bind (fun p => p.slotRef 0) = .ok (0, 0)
    decide
  · show deletedSlotTrace.bind (fun p => p.row 0) = .ok []
    decide

/-- C7 counterexample: on `corruptPage` (slot 0 = `(4000, 200)`, so
`offset + length = 4200 > PAGE_SIZE`, a state reachable through `data_mut`
or disk bytes) `row(0)` is a Rust panic — the slice index
`&data[4000..4200]` is out of range — not an `Ok` or an error value. -/
theorem c7_row_panics_on_corruption :
    corruptPage.row 0 = .panic := by
  show corruptPage.row 0 = .panic
  decide

/-- C4 counterexample: `fullPage` is well formed (consistent header
`4091 + 1 + 4·1 = 4096`, `96 ≤ free_start = 4092 = free_end + 1`, its one
valid slot `(96, 3996)` lies inside `[HEADER_SIZE, free_start)`), yet
`compact()` panics: the scratch buffer is allocated with
`free_end − HEADER_SIZE = 3995` bytes, one byte short of the 3996-byte row,
so the claimed before/after read equivalence fails — there is no "after". -/
theorem c4_compact_panics_on_full_page :
    headerView fullPage = (1, 4092, 4091, 0, 0) ∧
    fullPage.slotRef 0 = .ok (96, 3996) ∧
    fullPage.compact = .panic := by
  refine ⟨?_, ?_, ?_⟩
  · show headerView fullPage = (1, 4092, 4091, 0, 0)
    decide
  · show fullPage.slotRef 0 = .ok (96, 3996)
    decide
  · have h : fullPage.compact.isPanic = true := by decide
    revert h
    cases fullPage.compact <;> simp [Res.isPanic]

theorem slotRegionLen_of_cons (p : Page)
    (hCons : getFreeEnd p + 1 + SLOT_SIZE * getSlotCount p = PAGE_SIZE) :
    slotRegionLen p = .ok (SLOT_SIZE * getSlotCount p) := by
  unfold slotRegionLen
  rw [if_neg (by omega : ¬ (getFreeEnd p + 1 > PAGE_SIZE))]
  have h2 : PAGE_SIZE - (getFreeEnd p + 1) = SLOT_SIZE * getSlotCount p := by omega
  simp [h2]

/-- C6: on a page with a consistent slot region, `row(i)` fails with
`InvalidSlot` whenever `i ≥ slot_count`; but on an invalid slot
(`offset = 0`, `length = 0`) it does not fail — it returns `Ok` with the
empty slice `data[0..0]` (the missing `is_slot_valid` check in
`read_row_internal`). -/
theorem c6_row_invalid_behaviour (p : Page) (i : Nat)
    (hCons : getFreeEnd p + 1 + SLOT_SIZE * getSlotCount p = PAGE_SIZE) :
    (getSlotCount p ≤ i → p.row i = .err (.invalidSlot i)) ∧
    (p.slotRef i = .ok (0, 0) → p.row i = .ok []) := by
  have hreg := slotRegionLen_of_cons p hCons
  have hS : SLOT_SIZE = 4 := rfl
  constructor
  · intro hle
    simp only [Page.row, Page.slotRef, Res.monad_bind_eq_bind, hreg,
      Res.bind_ok]
    unfold slotRefIn
    rw [if_pos (by simp only [hS] at *; omega)]
    rfl
  · intro hok
    simp only [Page.row, Res.monad_bind_eq_bind, hok, Res.bind_ok]
    rfl

/-- Witness for `c6_row_invalid_behaviour`: out-of-range index on the
fresh page, and the deleted (invalid) slot 0 of `deletedSlotPage`. -/
theorem c6_row_invalid_behaviour_witness :
    freshPage.row 5 = .err (.invalidSlot 5) ∧
    deletedSlotPage.row 0 = .ok [] :=
  ⟨(c6_row_invalid_behaviour freshPage 5 (by decide)).1 (by decide),
   (c6_row_invalid_behaviour deletedSlotPage 0 (by decide)).2 (by decide)⟩

theorem slotRef_ne_panic (p : Page) (i : Nat)
    (hfe : getFreeEnd p + 1 ≤ PAGE_SIZE) :
    p.slotRef i ≠ .panic := by
  simp only [Page.slotRef, Res.monad_bind_eq_bind]
  unfold slotRegionLen
  rw [if_neg (by omega : ¬ (getFreeEnd p + 1 > PAGE_SIZE))]
  dsimp only
  split
  · simp only [Res.bind_ok]
    unfold slotRefIn
    split
    · exact fun h => Res.noConfusion h
    · exact fun h => Res.noConfusion h
  · simp only [Res.bind_err]
    exact fun h => Res.noConfusion h

/-- C7: amended totality.  `row(i)` never panics provided the page is not
corrupted: the slot region fits in the page and the addressed slot's
`offset + length` stays within `PAGE_SIZE`.  Without the second
hypothesis the claim is false — see `c7_row_panics_on_corruption`. -/
theorem c7_row_total (p : Page) (i : Nat)
    (hfe : getFreeEnd p + 1 ≤ PAGE_SIZE)
    (hrange : ∀ off len, p.slotRef i = .ok (off, len) →
      off + len ≤ PAGE_SIZE) :
    p.row i ≠ .panic := by
  cases hsr : p.slotRef i with
  | ok s =>
    obtain ⟨off, len⟩ := s
    have hle := hrange off len hsr
    simp only [Page.row, Res.monad_bind_eq_bind, hsr, Res.bind_ok]
    rw [if_neg (by omega : ¬ (off + len > PAGE_SIZE))]
    exact fun h => Res.noConfusion h
  | err e =>
    simp only [Page.row, Res.monad_bind_eq_bind, hsr, Res.bind_err]
    exact fun h => Res.noConfusion h
  | panic => exact absurd hsr (slotRef_ne_panic p i hfe)

/-- Witness for `c7_row_total` on the fresh page at slot 0. -/
theorem c7_row_total_witness : freshPage.row 0 ≠ .panic :=
  c7_row_total freshPage 0 (by decide) (fun off len h => by
    rw [show freshPage.slotRef 0 = .err (.invalidSlot 0) from by decide] at h
    exact Res.noConfusion h)

theorem slotRefIn_eq_specSlotAt (p : Page)
    (hCons : getFreeEnd p + 1 + SLOT_SIZE * getSlotCount p = PAGE_SIZE)
    (i : Nat) (hi : i < getSlotCount p) :
    slotRefIn p (SLOT_SIZE * getSlotCount p) i = .ok (specSlotAt p i) := by
  simp only [slotRefIn, specSlotAt]
  rw [if_neg (by simp only [SLOT_SIZE] at *; omega)]
  have hstart : getFreeEnd p + 1 + (SLOT_SIZE * getSlotCount p - (i + 1) * SLOT_SIZE)
      = PAGE_SIZE - (i + 1) * SLOT_SIZE := by
    simp only [SLOT_SIZE, PAGE_SIZE] at *
    omega
  rw [hstart]

theorem findReuseSlot_spec (p : Page)
    (hCons : getFreeEnd p + 1 + SLOT_SIZE * getSlotCount p = PAGE_SIZE) :
    ∀ remaining i, i + remaining = getSlotCount p →
      findReuseSlot p (SLOT_SIZE * getSlotCount p) i remaining =
        .ok (match (List.range' i remaining).find?
                (fun j => ! isSlotValid (specSlotAt p j)) with
             | some j => .reuse j
             | none => .new)
  | 0, i, _ => by simp [findReuseSlot, List.range']
  | remaining + 1, i, h => by
      have hi : i < getSlotCount p := by omega
      unfold findReuseSlot
      rw [slotRefIn_eq_specSlotAt p hCons i hi]
      simp only [Res.monad_bind_eq_bind, Res.bind_ok]
      rw [List.range'_succ]
      by_cases hv : isSlotValid (specSlotAt p i)
      · rw [if_pos hv, findReuseSlot_spec p hCons remaining (i + 1) (by omega)]
        rw [List.find?_cons_of_neg _ (by simp [hv])]
      · rw [if_neg hv, List.find?_cons_of_pos _ (by simp [hv])]

theorem collectExtents_spec (p : Page)
    (hCons : getFreeEnd p + 1 + SLOT_SIZE * getSlotCount p = PAGE_SIZE) :
    ∀ remaining i acc, i + remaining = getSlotCount p →
      collectExtents p (SLOT_SIZE * getSlotCount p) none i remaining acc =
        .ok (acc ++ ((List.range' i remaining).filter
            (fun j => isSlotValid (specSlotAt p j))).map
          (fun j => ((specSlotAt p j).1, (specSlotAt p j).1 + (specSlotAt p j).2)))
  | 0, i, acc, _ => by simp [collectExtents, List.range']
  | remaining + 1, i, acc, h => by
      have hi : i < getSlotCount p := by omega
      unfold collectExtents
      rw [slotRefIn_eq_specSlotAt p hCons i hi]
      simp only [Res.monad_bind_eq_bind, Res.bind_ok]
      rw [List.range'_succ]
      by_cases hv : isSlotValid (specSlotAt p i)
      · rw [if_pos hv, collectExtents_spec p hCons remaining (i + 1) _ (by omega)]
        have hfc : List.filter (fun j => isSlotValid (specSlotAt p j))
            (i :: List.range' (i + 1) remaining) =
            i :: List.filter (fun j => isSlotValid (specSlotAt p j))
              (List.range' (i + 1) remaining) :=
          List.filter_cons_of_pos (by exact hv)
        rw [hfc, List.map_cons, List.append_cons,
          if_neg (fun hh => Option.noConfusion hh)]
        simp
      · rw [if_neg hv, collectExtents_spec p hCons remaining (i + 1) _ (by omega)]
        have hfc : List.filter (fun j => isSlotValid (specSlotAt p j))
            (i :: List.range' (i + 1) remaining) =
            List.filter (fun j => isSlotValid (specSlotAt p j))
              (List.range' (i + 1) remaining) :=
          List.filter_cons_of_neg (by simp [hv])
        rw [hfc]

theorem insertByStart_ne_nil (x : Nat × Nat) (l : List (Nat × Nat)) :
    insertByStart x l ≠ [] := by
  cases l with
  | nil => simp [insertByStart]
  | cons y ys =>
    simp only [insertByStart]
    split <;> simp

theorem sortByStart_eq_nil_iff (l : List (Nat × Nat)) :
    sortByStart l = [] ↔ l = [] := by
  cases l with
  | nil => simp [sortByStart]
  | cons x xs =>
    simp only [sortByStart]
    constructor
    · intro h
      exact absurd h (insertByStart_ne_nil x (sortByStart xs))
    · intro h
      cases h

theorem firstGap_eq_spec (rowLen : Nat) (hrl : 1 ≤ rowLen) :
    ∀ l : List (Nat × Nat), firstGap rowLen l = specFirstGap rowLen l
  | [] => rfl
  | [_] => rfl
  | (aS, aE) :: (bS, bE) :: rest => by
      simp only [firstGap, specFirstGap]
      have hiff : (bS ≥ aE ∧ bS - aE ≥ rowLen) ↔ (bS - aE ≥ rowLen) := by omega
      by_cases hc : bS - aE ≥ rowLen
      · rw [if_pos (hiff.mpr hc), if_pos hc]
      · rw [if_neg (fun hh => hc (hiff.mp hh)), if_neg hc]
        exact firstGap_eq_spec rowLen hrl ((bS, bE) :: rest)

theorem findInsertionOffset_none_eq_spec (p : Page)
    (hCons : getFreeEnd p + 1 + SLOT_SIZE * getSlotCount p = PAGE_SIZE)
    (rowLen : Nat) :
    findInsertionOffset p rowLen none = .ok (specOffsetChoice p rowLen) := by
  unfold findInsertionOffset specOffsetChoice
  rw [slotRegionLen_of_cons p hCons]
  simp only [Res.monad_bind_eq_bind, Res.bind_ok]
  by_cases hfast : getFreeEnd p - getFreeStart p ≥ rowLen
  · rw [if_pos hfast, if_pos hfast]
  · rw [if_neg hfast, if_neg hfast]
    have hrl : 1 ≤ rowLen := by omega
    rw [collectExtents_spec p hCons (getSlotCount p) 0 [] (by omega)]
    simp only [Res.bind_ok, List.nil_append]
    have hE : specExtents p =
        ((List.range' 0 (getSlotCount p)).filter
            (fun j => isSlotValid (specSlotAt p j))).map
          (fun j => ((specSlotAt p j).1, (specSlotAt p j).1 + (specSlotAt p j).2)) := by
      unfold specExtents
      rw [List.range_eq_range']
    rw [← hE]
    by_cases hnil : specExtents p = []
    · rw [hnil]
      simp [sortByStart, specFirstGap]
    · rw [if_neg (by simpa [List.isEmpty_iff] using hnil)]
      rw [firstGap_eq_spec rowLen hrl]
      cases hg : specFirstGap rowLen (sortByStart (specExtents p)) with
      | some pos => rfl
      | none =>
        have hsne : sortByStart (specExtents p) ≠ [] := by
          intro h
          exact hnil ((sortByStart_eq_nil_iff _).mp h)
        cases hlast : (sortByStart (specExtents p)).getLast? with
        | none => exact absurd (List.getLast?_eq_none_iff.mp hlast) hsne
        | some lastExt =>
          dsimp only
          by_cases hc : getFreeEnd p - lastExt.2 ≥ rowLen
          · have hge : lastExt.2 ≤ getFreeEnd p := by
              have h0 : 0 < getFreeEnd p - lastExt.2 := by omega
              omega
            rw [if_pos ⟨hge, hc⟩, if_pos hc]
          · rw [if_neg (fun hh => hc hh.2), if_neg hc]

/-- C2: for every page with a consistent slot region and every `row_len`,
`plan_insert` behaves exactly as the claim describes (formalised as
`specPlanInsert`): the slot is the first invalid index (else `New`); it
fails with `NotEnoughSpace {row_len, free_space}` exactly when
`free_space < row_len + (SLOT_SIZE if New else 0)`; otherwise the offset is
the first hit of fast path / first sorted gap / tail gap, else
`AfterCompactionFreeStart` (also when no valid extents exist). -/
theorem c2_plan_insert_matches_spec (p : Page)
    (hCons : getFreeEnd p + 1 + SLOT_SIZE * getSlotCount p = PAGE_SIZE)
    (rowLen : Nat) :
    p.planInsert rowLen = specPlanInsert p rowLen := by
  unfold Page.planInsert specPlanInsert getInsertionSlot
  rw [slotRegionLen_of_cons p hCons]
  simp only [Res.monad_bind_eq_bind, Res.bind_ok]
  rw [findReuseSlot_spec p hCons (getSlotCount p) 0 (by omega)]
  simp only [Res.bind_ok]
  have hslot :
      (match (List.range' 0 (getSlotCount p)).find?
          (fun j => ! isSlotValid (specSlotAt p j)) with
       | some j => InsertionSlot.reuse j
       | none => InsertionSlot.new) = specSlotChoice p := by
    unfold specSlotChoice
    rw [List.range_eq_range']
  rw [hslot]
  by_cases hsp : getFreeSpace p <
      rowLen + if specSlotChoice p = InsertionSlot.new then SLOT_SIZE else 0
  · rw [if_pos hsp, if_pos hsp]
  · rw [if_neg hsp, if_neg hsp]
    rw [findInsertionOffset_none_eq_spec p hCons rowLen]
    simp only [Res.bind_ok]

/-- C2 witness: the theorem applied to the freshly initialized page and
`row_len = 100`. -/
theorem c2_plan_insert_matches_spec_witness :
    freshPage.planInsert 100 = specPlanInsert freshPage 100 :=
  c2_plan_insert_matches_spec freshPage (by decide) 100

/-! ### Byte-level helper lemmas -/

theorem upd_apply_ne (d : Bytes) (i v j : Nat) (h : j ≠ i) :
    upd d i v j = d j := by simp [upd, h]

theorem writeU16_apply_ne (d : Bytes) (off v j : Nat)
    (h1 : j ≠ off) (h2 : j ≠ off + 1) :
    writeU16 d off v j = d j := by simp [writeU16, upd, h1, h2]

theorem readU16_writeU16_same (d : Bytes) (off v : Nat) :
    readU16 (writeU16 d off v) off = v % 65536 := by
  have h1 : off ≠ off + 1 := by omega
  simp [readU16, writeU16, upd, h1]
  omega

theorem readU16_writeU16_ne (d : Bytes) (off v a : Nat)
    (h1 : a ≠ off) (h2 : a ≠ off + 1) (h3 : a + 1 ≠ off) :
    readU16 (writeU16 d off v) a = readU16 d a := by
  have h4 : a + 1 ≠ off + 1 := by omega
  simp [readU16, writeU16, upd, h1, h2, h3, h4]

theorem readU16_lt (d : Bytes) (off : Nat)
    (h1 : d off < 256) (h2 : d (off + 1) < 256) :
    readU16 d off < 65536 := by
  simp only [readU16]
  omega

theorem writeU16_lt_256 (d : Bytes) (off v : Nat) (h : ∀ k, d k < 256) :
    ∀ k, writeU16 d off v k < 256 := by
  intro k
  simp only [writeU16, upd]
  split
  · omega
  · split
    · omega
    · exact h k

theorem readU16_of_agree (d d2 : Bytes) (off : Nat)
    (h1 : d2 off = d off) (h2 : d2 (off + 1) = d (off + 1)) :
    readU16 d2 off = readU16 d off := by
  simp [readU16, h1, h2]

theorem copyRange_apply_in (dest : Bytes) (off : Nat) (src : Bytes)
    (srcOff len j : Nat) (h : off ≤ j ∧ j < off + len) :
    copyRange dest off src srcOff len j = src (srcOff + (j - off)) % 256 := by
  simp [copyRange, h]

theorem copyRange_apply_out (dest : Bytes) (off : Nat) (src : Bytes)
    (srcOff len j : Nat) (h : ¬ (off ≤ j ∧ j < off + len)) :
    copyRange dest off src srcOff len j = dest j := by
  simp only [copyRange]
  rw [if_neg h]

/-- Reading a `u16` at `a` is unaffected by the two slot-entry writes at
`b, b+1, b+2, b+3` when the cells are disjoint. -/
theorem readU16_slotWrite_ne (d : Bytes) (b off len a : Nat)
    (h : a + 1 < b ∨ b + 3 < a) :
    readU16 (writeU16 (writeU16 d (b + 2) len) b off) a = readU16 d a := by
  rw [readU16_writeU16_ne _ _ _ _ (by omega) (by omega) (by omega)]
  rw [readU16_writeU16_ne _ _ _ _ (by omega) (by omega) (by omega)]

theorem slotWrite_apply_lt (d : Bytes) (b off len k : Nat) (h : k < b) :
    (writeU16 (writeU16 d (b + 2) len) b off) k = d k := by
  rw [writeU16_apply_ne _ _ _ _ (by omega) (by omega)]
  rw [writeU16_apply_ne _ _ _ _ (by omega) (by omega)]

theorem readU16_slotWrite_off (d : Bytes) (b off len : Nat) :
    readU16 (writeU16 (writeU16 d (b + 2) len) b off) b = off % 65536 :=
  readU16_writeU16_same _ _ _

theorem readU16_slotWrite_len (d : Bytes) (b off len : Nat) :
    readU16 (writeU16 (writeU16 d (b + 2) len) b off) (b + 2) = len % 65536 := by
  rw [readU16_writeU16_ne _ _ _ _ (by omega) (by omega) (by omega)]
  exact readU16_writeU16_same _ _ _

/-! ### `prefixLen` lemmas -/

theorem prefixLen_zero (p : Page) : prefixLen p 0 = 0 := rfl

theorem prefixLen_succ_valid (p : Page) (i : Nat)
    (hv : isSlotValid (specSlotAt p i) = true) :
    prefixLen p (i + 1) = prefixLen p i + (specSlotAt p i).2 := by
  simp [prefixLen, List.range_succ, List.filter_append, hv]

theorem prefixLen_succ_invalid (p : Page) (i : Nat)
    (hv : isSlotValid (specSlotAt p i) = false) :
    prefixLen p (i + 1) = prefixLen p i := by
  simp [prefixLen, List.range_succ, List.filter_append, hv]

theorem prefixLen_le_succ (p : Page) (i : Nat) :
    prefixLen p i ≤ prefixLen p (i + 1) := by
  cases hv : isSlotValid (specSlotAt p i) with
  | true => rw [prefixLen_succ_valid p i hv]; omega
  | false => rw [prefixLen_succ_invalid p i hv]

theorem prefixLen_mono (p : Page) (i j : Nat) (h : i ≤ j) :
    prefixLen p i ≤ prefixLen p j := by
  induction j with
  | zero =>
    have h0 : i = 0 := by omega
    subst h0
    exact Nat.le_refl _
  | succ j ih =>
    rcases Nat.lt_or_ge i (j + 1) with h2 | h2
    · exact Nat.le_trans (ih (by omega)) (prefixLen_le_succ p j)
    · have : i = j + 1 := by omega
      subst this
      exact Nat.le_refl _

/-! ### Page-level bridge lemmas -/

theorem slotRef_eq_specSlotAt (p : Page)
    (hCons : getFreeEnd p + 1 + SLOT_SIZE * getSlotCount p = PAGE_SIZE)
    (i : Nat) (hi : i < getSlotCount p) :
    p.slotRef i = .ok (specSlotAt p i) := by
  unfold Page.slotRef
  rw [slotRegionLen_of_cons p hCons]
  simp only [Res.monad_bind_eq_bind, Res.bind_ok]
  exact slotRefIn_eq_specSlotAt p hCons i hi

theorem setSlot_spec (p : Page)
    (hCons : getFreeEnd p + 1 + SLOT_SIZE * getSlotCount p = PAGE_SIZE)
    (i : Nat) (hi : i < getSlotCount p) (off len : Nat) :
    p.setSlot i off len = .ok ⟨p.pageId,
      writeU16 (writeU16 p.data ((PAGE_SIZE - (i + 1) * SLOT_SIZE) + 2) len)
        (PAGE_SIZE - (i + 1) * SLOT_SIZE) off⟩ := by
  unfold Page.setSlot
  rw [slotRegionLen_of_cons p hCons]
  simp only [Res.monad_bind_eq_bind, Res.bind_ok]
  rw [if_neg (by simp only [SLOT_SIZE] at *; omega)]
  have hstart : getFreeEnd p + 1 + (SLOT_SIZE * getSlotCount p - (i + 1) * SLOT_SIZE)
      = PAGE_SIZE - (i + 1) * SLOT_SIZE := by
    simp only [SLOT_SIZE, PAGE_SIZE] at *
    omega
  rw [hstart]

theorem header_getters_of_agree (p q : Page) (bound : Nat) (hb : 10 ≤ bound)
    (hagr : ∀ k, k < bound → p.data k = q.data k) :
    getSlotCount p = getSlotCount q ∧ getFreeStart p = getFreeStart q ∧
    getFreeEnd p = getFreeEnd q ∧ getFreeSpace p = getFreeSpace q ∧
    getCanCompact p = getCanCompact q := by
  refine ⟨?_, ?_, ?_, ?_, ?_⟩ <;>
    exact readU16_of_agree _ _ _ (hagr _ (by simp [SLOT_COUNT_OFF, FREE_START_OFF,
      FREE_END_OFF, FREE_SPACE_OFF, CAN_COMPACT_OFF]; omega))
      (hagr _ (by simp [SLOT_COUNT_OFF, FREE_START_OFF, FREE_END_OFF,
        FREE_SPACE_OFF, CAN_COMPACT_OFF]; omega))

theorem sliceList_congr (d d2 : Bytes) (off off2 len : Nat)
    (h : ∀ k, k < len → d2 (off2 + k) = d (off + k)) :
    sliceList d2 off2 len = sliceList d off len := by
  simp only [sliceList]
  apply List.map_congr_left
  intro a ha
  exact h a (List.mem_range.mp ha)

/-- Invariant-preservation proof for the compaction loop: starting at slot
`i` with write head `prefixLen p0 i` and a page agreeing with `p0` below
`free_end + 1`, the loop completes, never panics, moves every valid row of
`p0` to `HEADER_SIZE + prefixLen p0 j`, and leaves invalid slots and the
tuple region untouched. -/
theorem compactLoop_spec (p0 : Page)
    (hCons : getFreeEnd p0 + 1 + SLOT_SIZE * getSlotCount p0 = PAGE_SIZE)
    (hFs1 : HEADER_SIZE ≤ getFreeStart p0)
    (hFs2 : getFreeStart p0 ≤ getFreeEnd p0 + 1)
    (hByte : ∀ k, p0.data k < 256)
    (hSlots : ∀ i, i < getSlotCount p0 → isSlotValid (specSlotAt p0 i) = true →
      HEADER_SIZE ≤ (specSlotAt p0 i).1 ∧
      (specSlotAt p0 i).1 + (specSlotAt p0 i).2 ≤ getFreeStart p0)
    (hTot : HEADER_SIZE + totalValidLen p0 ≤ getFreeEnd p0) :
    ∀ remaining i p buf wh,
      i + remaining = getSlotCount p0 →
      wh = prefixLen p0 i →
      (∀ k, k < getFreeEnd p0 + 1 → p.data k = p0.data k) →
      (∀ j, i ≤ j → j < getSlotCount p0 → specSlotAt p j = specSlotAt p0 j) →
      (∀ j, j < i → isSlotValid (specSlotAt p0 j) = true →
        specSlotAt p j = (HEADER_SIZE + prefixLen p0 j, (specSlotAt p0 j).2)) →
      (∀ j, j < i → isSlotValid (specSlotAt p0 j) = false →
        specSlotAt p j = specSlotAt p0 j) →
      (∀ j, j < i → isSlotValid (specSlotAt p0 j) = true →
        ∀ k, k < (specSlotAt p0 j).2 →
          buf (prefixLen p0 j + k) = p0.data ((specSlotAt p0 j).1 + k)) →
      ∃ p2 buf2,
        compactLoop (getFreeEnd p0 - HEADER_SIZE) i remaining p buf wh =
          .ok (p2, buf2, totalValidLen p0) ∧
        (∀ k, k < getFreeEnd p0 + 1 → p2.data k = p0.data k) ∧
        (∀ j, j < getSlotCount p0 → isSlotValid (specSlotAt p0 j) = true →
          specSlotAt p2 j = (HEADER_SIZE + prefixLen p0 j, (specSlotAt p0 j).2)) ∧
        (∀ j, j < getSlotCount p0 → isSlotValid (specSlotAt p0 j) = false →
          specSlotAt p2 j = specSlotAt p0 j) ∧
        (∀ j, j < getSlotCount p0 → isSlotValid (specSlotAt p0 j) = true →
          ∀ k, k < (specSlotAt p0 j).2 →
            buf2 (prefixLen p0 j + k) = p0.data ((specSlotAt p0 j).1 + k)) := by
  intro remaining
  induction remaining with
  | zero =>
    intro i p buf wh hic hwh hagr hup hvdone hinvdone hbuf
    have hieq : i = getSlotCount p0 := by omega
    subst hieq
    refine ⟨p, buf, ?_, hagr, hvdone, hinvdone, hbuf⟩
    rw [hwh]
    rfl
  | succ remaining ih =>
    intro i p buf wh hic hwh hagr hup hvdone hinvdone hbuf
    have hi : i < getSlotCount p0 := by omega
    have h96 : HEADER_SIZE ≤ getFreeEnd p0 + 1 := by
      simp only [HEADER_SIZE] at *
      omega
    have hhdr := header_getters_of_agree p p0 (getFreeEnd p0 + 1)
      (by simp only [HEADER_SIZE] at h96; omega) hagr
    have hConsP : getFreeEnd p + 1 + SLOT_SIZE * getSlotCount p = PAGE_SIZE := by
      rw [hhdr.2.2.1, hhdr.1]
      exact hCons
    have hiP : i < getSlotCount p := by rw [hhdr.1]; exact hi
    have hsr : p.slotRef i = .ok (specSlotAt p i) :=
      slotRef_eq_specSlotAt p hConsP i hiP
    have hspec : specSlotAt p i = specSlotAt p0 i := hup i (Nat.le_refl i) hi
    have hcount : 4 * getSlotCount p0 + (getFreeEnd p0 + 1) = 4096 := by
      simp only [SLOT_SIZE, PAGE_SIZE] at hCons
      omega
    cases hv : isSlotValid (specSlotAt p0 i) with
    | false =>
      have hstep : compactLoop (getFreeEnd p0 - HEADER_SIZE) i (remaining + 1) p buf wh
          = compactLoop (getFreeEnd p0 - HEADER_SIZE) (i + 1) remaining p buf wh := by
        show Res.bind (p.slotRef i) _ = _
        rw [hsr]
        simp only [Res.bind_ok]
        rw [hspec, hv]
        simp
      rw [hstep]
      refine ih (i + 1) p buf wh (by omega)
        (by rw [hwh, prefixLen_succ_invalid p0 i hv]) hagr
        (fun j hj1 hj2 => hup j (by omega) hj2) ?_ ?_ ?_
      · intro j hj hvj
        rcases Nat.lt_or_ge j i with hlt | hge
        · exact hvdone j hlt hvj
        · have hji : j = i := by omega
          subst hji
          rw [hvj] at hv
          cases hv
      · intro j hj hvj
        rcases Nat.lt_or_ge j i with hlt | hge
        · exact hinvdone j hlt hvj
        · have hji : j = i := by omega
          subst hji
          exact hup j (Nat.le_refl j) hi
      · intro j hj hvj
        rcases Nat.lt_or_ge j i with hlt | hge
        · exact hbuf j hlt hvj
        · have hji : j = i := by omega
          subst hji
          rw [hvj] at hv
          cases hv
    | true =>
      have hExt := hSlots i hi hv
      have hNoPanic1 : ¬ ((specSlotAt p0 i).1 + (specSlotAt p0 i).2 > PAGE_SIZE) := by
        simp only [PAGE_SIZE, HEADER_SIZE] at *
        omega
      have hwh1 : prefixLen p0 (i + 1) = wh + (specSlotAt p0 i).2 := by
        rw [hwh, prefixLen_succ_valid p0 i hv]
      have hTot2 : wh + (specSlotAt p0 i).2 ≤ totalValidLen p0 := by
        rw [← hwh1]
        exact prefixLen_mono p0 (i + 1) (getSlotCount p0) (by omega)
      have hNoPanic2 : ¬ (wh + (specSlotAt p0 i).2 > getFreeEnd p0 - HEADER_SIZE) := by
        simp only [HEADER_SIZE] at *
        omega
      have hss := setSlot_spec p hConsP i hiP
        (w16 (HEADER_SIZE + wh)) (w16 (specSlotAt p0 i).2)
      have hstep : compactLoop (getFreeEnd p0 - HEADER_SIZE) i (remaining + 1) p buf wh
          = compactLoop (getFreeEnd p0 - HEADER_SIZE) (i + 1) remaining
              ⟨p.pageId, writeU16 (writeU16 p.data
                  ((PAGE_SIZE - (i + 1) * SLOT_SIZE) + 2) (w16 (specSlotAt p0 i).2))
                (PAGE_SIZE - (i + 1) * SLOT_SIZE) (w16 (HEADER_SIZE + wh))⟩
              (copyRange buf wh p.data (specSlotAt p0 i).1 (specSlotAt p0 i).2)
              (wh + (specSlotAt p0 i).2) := by
        show Res.bind (p.slotRef i) _ = _
        rw [hsr]
        simp only [Res.bind_ok]
        rw [hspec, hv]
        simp only [if_true]
        rw [if_neg hNoPanic1, if_neg hNoPanic2]
        show Res.bind (p.setSlot i _ _) _ = _
        rw [hss]
        simp only [Res.bind_ok]
      rw [hstep]
      have hble : getFreeEnd p0 + 1 ≤ PAGE_SIZE - (i + 1) * SLOT_SIZE := by
        simp only [SLOT_SIZE, PAGE_SIZE] at *
        omega
      refine ih (i + 1) _ _ _ (by omega) hwh1.symm ?_ ?_ ?_ ?_ ?_
      · intro k hk
        show (writeU16 (writeU16 p.data _ _) _ _) k = p0.data k
        rw [slotWrite_apply_lt _ _ _ _ _ (by omega)]
        exact hagr k hk
      · intro j hj1 hj2
        have hja : PAGE_SIZE - (j + 1) * SLOT_SIZE + 3 <
            PAGE_SIZE - (i + 1) * SLOT_SIZE := by
          simp only [SLOT_SIZE, PAGE_SIZE] at *
          omega
        have hq : specSlotAt
            ⟨p.pageId, writeU16 (writeU16 p.data
                ((PAGE_SIZE - (i + 1) * SLOT_SIZE) + 2) (w16 (specSlotAt p0 i).2))
              (PAGE_SIZE - (i + 1) * SLOT_SIZE) (w16 (HEADER_SIZE + wh))⟩ j
            = specSlotAt p j := by
          simp only [specSlotAt]
          rw [readU16_slotWrite_ne _ _ _ _ _ (Or.inl (by omega)),
            readU16_slotWrite_ne _ _ _ _ _ (Or.inl (by omega))]
        rw [hq]
        exact hup j (by omega) hj2
      · intro j hj hvj
        rcases Nat.lt_or_ge j i with hlt | hge
        · have hja : PAGE_SIZE - (i + 1) * SLOT_SIZE + 3 <
              PAGE_SIZE - (j + 1) * SLOT_SIZE := by
            simp only [SLOT_SIZE, PAGE_SIZE] at *
            omega
          have hq : specSlotAt
              ⟨p.pageId, writeU16 (writeU16 p.data
                  ((PAGE_SIZE - (i + 1) * SLOT_SIZE) + 2) (w16 (specSlotAt p0 i).2))
                (PAGE_SIZE - (i + 1) * SLOT_SIZE) (w16 (HEADER_SIZE + wh))⟩ j
              = specSlotAt p j := by
            simp only [specSlotAt]
            rw [readU16_slotWrite_ne _ _ _ _ _ (Or.inr (by omega)),
              readU16_slotWrite_ne _ _ _ _ _ (Or.inr (by omega))]
          rw [hq]
          exact hvdone j hlt hvj
        · have hji : j = i := by omega
          subst hji
          have hsl_lt : (specSlotAt p0 j).2 < 65536 := by
            simp only [specSlotAt]
            exact readU16_lt _ _ (hByte _) (hByte _)
          have hwh_lt : HEADER_SIZE + wh < 65536 := by
            simp only [HEADER_SIZE] at *
            omega
          simp only [specSlotAt] at hsl_lt ⊢
          rw [readU16_slotWrite_off, readU16_slotWrite_len]
          simp only [w16, Prod.mk.injEq]
          constructor
          · omega
          · omega
      · intro j hj hvj
        rcases Nat.lt_or_ge j i with hlt | hge
        · have hq : specSlotAt
              ⟨p.pageId, writeU16 (writeU16 p.data
                  ((PAGE_SIZE - (i + 1) * SLOT_SIZE) + 2) (w16 (specSlotAt p0 i).2))
                (PAGE_SIZE - (i + 1) * SLOT_SIZE) (w16 (HEADER_SIZE + wh))⟩ j
              = specSlotAt p j := by
            simp only [specSlotAt]
            rw [readU16_slotWrite_ne _ _ _ _ _ (Or.inr (by
                simp only [SLOT_SIZE, PAGE_SIZE] at *
                omega)),
              readU16_slotWrite_ne _ _ _ _ _ (Or.inr (by
                simp only [SLOT_SIZE, PAGE_SIZE] at *
                omega))]
          rw [hq]
          exact hinvdone j hlt hvj
        · have hji : j = i := by omega
          subst hji
          rw [hvj] at hv
          cases hv
      · intro j hj hvj k hk
        rcases Nat.lt_or_ge j i with hlt | hge
        · have hpos : prefixLen p0 j + k < wh := by
            have h1 : prefixLen p0 j + (specSlotAt p0 j).2 = prefixLen p0 (j + 1) :=
              (prefixLen_succ_valid p0 j hvj).symm
            have h2 : prefixLen p0 (j + 1) ≤ prefixLen p0 i :=
              prefixLen_mono p0 (j + 1) i (by omega)
            omega
          rw [copyRange_apply_out _ _ _ _ _ _ (by omega)]
          exact hbuf j hlt hvj k hk
        · have hji : j = i := by omega
          subst hji
          rw [copyRange_apply_in _ _ _ _ _ _ (by omega)]
          have hkk : prefixLen p0 j + k - wh = k := by omega
          rw [hkk]
          have hin : (specSlotAt p0 j).1 + k < getFreeEnd p0 + 1 := by
            simp only [HEADER_SIZE] at *
            omega
          rw [hagr _ hin]
          exact Nat.mod_eq_of_lt (hByte _)

/-- Full characterisation of a successful `compact()` on a well-formed page
whose valid rows (plus the header) fit strictly below `free_end`. -/
theorem compact_main (p0 : Page) (hWF : pageWF p0)
    (hTot : HEADER_SIZE + totalValidLen p0 ≤ getFreeEnd p0) :
    ∃ p2, p0.compact = .ok p2 ∧
      getFreeStart p2 = HEADER_SIZE + totalValidLen p0 ∧
      getSlotCount p2 = getSlotCount p0 ∧
      getFreeEnd p2 = getFreeEnd p0 ∧
      getFreeSpace p2 = getFreeSpace p0 ∧
      getCanCompact p2 = getCanCompact p0 ∧
      (∀ j, j < getSlotCount p0 → isSlotValid (specSlotAt p0 j) = true →
        specSlotAt p2 j = (HEADER_SIZE + prefixLen p0 j, (specSlotAt p0 j).2)) ∧
      (∀ j, j < getSlotCount p0 → isSlotValid (specSlotAt p0 j) = false →
        specSlotAt p2 j = specSlotAt p0 j) ∧
      (∀ j, j < getSlotCount p0 → isSlotValid (specSlotAt p0 j) = true →
        ∀ k, k < (specSlotAt p0 j).2 →
          p2.data (HEADER_SIZE + prefixLen p0 j + k) = p0.data ((specSlotAt p0 j).1 + k)) := by
  obtain ⟨hCons, hFs1, hFs2, hByte, hSlots⟩ := hWF
  have hH : HEADER_SIZE = 96 := rfl
  have hP : PAGE_SIZE = 4096 := rfl
  have hS : SLOT_SIZE = 4 := rfl
  have hF : FREE_START_OFF = 2 := rfl
  have hfe96 : HEADER_SIZE ≤ getFreeEnd p0 := by omega
  have hfe4095 : getFreeEnd p0 + 1 ≤ PAGE_SIZE := by omega
  obtain ⟨pN, bufN, hloop, hagrN, hvN, hinvN, hbufN⟩ :=
    compactLoop_spec p0 hCons hFs1 hFs2 hByte hSlots hTot
      (getSlotCount p0) 0 p0 (fun _ => 0) 0 (by omega) rfl
      (fun k _ => rfl) (fun j _ _ => rfl)
      (fun j hj => absurd hj (Nat.not_lt_zero j))
      (fun j hj => absurd hj (Nat.not_lt_zero j))
      (fun j hj => absurd hj (Nat.not_lt_zero j))
  have hfinal : ¬ (HEADER_SIZE + totalValidLen p0 > PAGE_SIZE) := by omega
  have hrun : p0.compact = .ok (setFreeStart
      ⟨pN.pageId, copyRange pN.data HEADER_SIZE bufN 0 (totalValidLen p0)⟩
      (w16 (HEADER_SIZE + totalValidLen p0))) := by
    unfold Page.compact
    rw [if_neg (by omega : ¬ (getFreeEnd p0 < HEADER_SIZE))]
    simp only [Res.monad_bind_eq_bind]
    rw [hloop]
    simp only [Res.bind_ok]
    rw [if_neg hfinal]
  have hhdrN := header_getters_of_agree pN p0 (getFreeEnd p0 + 1) (by omega) hagrN
  set q : Page := ⟨pN.pageId, copyRange pN.data HEADER_SIZE bufN 0 (totalValidLen p0)⟩
  have hqhdr : ∀ c, c + 1 < HEADER_SIZE → readU16 q.data c = readU16 pN.data c := by
    intro c hc
    apply readU16_of_agree
    · exact copyRange_apply_out _ _ _ _ _ _ (by omega)
    · exact copyRange_apply_out _ _ _ _ _ _ (by omega)
  set p2 : Page := setFreeStart q (w16 (HEADER_SIZE + totalValidLen p0))
  have hp2hdr : ∀ c, c + 1 < HEADER_SIZE → c ≠ FREE_START_OFF →
      c ≠ FREE_START_OFF + 1 → c + 1 ≠ FREE_START_OFF →
      readU16 p2.data c = readU16 pN.data c := by
    intro c hc hne1 hne2 hne3
    show readU16 (writeU16 q.data FREE_START_OFF _) c = _
    rw [readU16_writeU16_ne _ _ _ _ hne1 hne2 hne3]
    exact hqhdr c hc
  have hslotread : ∀ c, HEADER_SIZE + totalValidLen p0 ≤ c →
      readU16 p2.data c = readU16 pN.data c := by
    intro c hc
    show readU16 (writeU16 q.data FREE_START_OFF _) c = _
    rw [readU16_writeU16_ne _ _ _ _ (by omega) (by omega) (by omega)]
    apply readU16_of_agree
    · exact copyRange_apply_out _ _ _ _ _ _ (by omega)
    · exact copyRange_apply_out _ _ _ _ _ _ (by omega)
  have specSlotAt_p2_eq_pN : ∀ j, j < getSlotCount p0 →
      specSlotAt p2 j = specSlotAt pN j := by
    intro j hj
    have ha : HEADER_SIZE + totalValidLen p0 ≤ PAGE_SIZE - (j + 1) * SLOT_SIZE := by
      simp only [hS] at hCons ⊢
      omega
    simp only [specSlotAt]
    rw [hslotread _ ha, hslotread _ (by omega)]
  refine ⟨p2, hrun, ?_, ?_, ?_, ?_, ?_, ?_, ?_, ?_⟩
  · show readU16 (writeU16 q.data FREE_START_OFF _) FREE_START_OFF = _
    rw [readU16_writeU16_same]
    simp only [w16]
    omega
  · rw [show getSlotCount p2 = readU16 p2.data SLOT_COUNT_OFF from rfl,
      hp2hdr SLOT_COUNT_OFF (by simp [SLOT_COUNT_OFF, HEADER_SIZE])
        (by simp [SLOT_COUNT_OFF, FREE_START_OFF])
        (by simp [SLOT_COUNT_OFF, FREE_START_OFF])
        (by simp [SLOT_COUNT_OFF, FREE_START_OFF])]
    exact hhdrN.1
  · rw [show getFreeEnd p2 = readU16 p2.data FREE_END_OFF from rfl,
      hp2hdr FREE_END_OFF (by simp [FREE_END_OFF, HEADER_SIZE])
        (by simp [FREE_END_OFF, FREE_START_OFF])
        (by simp [FREE_END_OFF, FREE_START_OFF])
        (by simp [FREE_END_OFF, FREE_START_OFF])]
    exact hhdrN.2.2.1
  · rw [show getFreeSpace p2 = readU16 p2.data FREE_SPACE_OFF from rfl,
      hp2hdr FREE_SPACE_OFF (by simp [FREE_SPACE_OFF, HEADER_SIZE])
        (by simp [FREE_SPACE_OFF, FREE_START_OFF])
        (by simp [FREE_SPACE_OFF, FREE_START_OFF])
        (by simp [FREE_SPACE_OFF, FREE_START_OFF])]
    exact hhdrN.2.2.2.1
  · rw [show getCanCompact p2 = readU16 p2.data CAN_COMPACT_OFF from rfl,
      hp2hdr CAN_COMPACT_OFF (by simp [CAN_COMPACT_OFF, HEADER_SIZE])
        (by simp [CAN_COMPACT_OFF, FREE_START_OFF])
        (by simp [CAN_COMPACT_OFF, FREE_START_OFF])
        (by simp [CAN_COMPACT_OFF, FREE_START_OFF])]
    exact hhdrN.2.2.2.2
  · intro j hj hvj
    rw [specSlotAt_p2_eq_pN j hj]
    exact hvN j hj hvj
  · intro j hj hvj
    rw [specSlotAt_p2_eq_pN j hj]
    exact hinvN j hj hvj
  · intro j hj hvj k hk
    have hlt : prefixLen p0 j + k < totalValidLen p0 := by
      have h1 : prefixLen p0 j + (specSlotAt p0 j).2 = prefixLen p0 (j + 1) :=
        (prefixLen_succ_valid p0 j hvj).symm
      have h2 : prefixLen p0 (j + 1) ≤ totalValidLen p0 :=
        prefixLen_mono p0 (j + 1) (getSlotCount p0) (by omega)
      omega
    show (writeU16 q.data FREE_START_OFF _) (HEADER_SIZE + prefixLen p0 j + k) = _
    rw [writeU16_apply_ne _ _ _ _ (by omega) (by omega)]
    show copyRange pN.data HEADER_SIZE bufN 0 (totalValidLen p0) _ = _
    rw [copyRange_apply_in _ _ _ _ _ _ (by omega)]
    have hkk : 0 + (HEADER_SIZE + prefixLen p0 j + k - HEADER_SIZE) = prefixLen p0 j + k := by
      omega
    rw [hkk, hbufN j hj hvj k hk]
    exact Nat.mod_eq_of_lt (hByte _)

/-- C4 (amended): on every well-formed page whose valid rows and header fit
below `free_end` (`HEADER_SIZE + totalValidLen ≤ free_end`), `compact()`
succeeds, every slot valid before stays valid, and `row(i)` returns the
same bytes after compaction as before. -/
theorem c4_compact_preserves_rows (p : Page) (hWF : pageWF p)
    (hTot : HEADER_SIZE + totalValidLen p ≤ getFreeEnd p) :
    ∃ p2, p.compact = .ok p2 ∧
      ∀ i, i < getSlotCount p → isSlotValid (specSlotAt p i) = true →
        isSlotValid (specSlotAt p2 i) = true ∧ p2.row i = p.row i := by
  obtain ⟨p2, hok, hfs, hsc, hfe, hsp, hcc, hvN, hinvN, hdataN⟩ :=
    compact_main p hWF hTot
  obtain ⟨hCons, hFs1, hFs2, hByte, hSlots⟩ := hWF
  have hH : HEADER_SIZE = 96 := rfl
  have hP : PAGE_SIZE = 4096 := rfl
  refine ⟨p2, hok, ?_⟩
  intro i hi hv
  have hslot2 := hvN i hi hv
  have hExt := hSlots i hi hv
  have htotle : prefixLen p i + (specSlotAt p i).2 ≤ totalValidLen p := by
    have h1 : prefixLen p i + (specSlotAt p i).2 = prefixLen p (i + 1) :=
      (prefixLen_succ_valid p i hv).symm
    have h2 : prefixLen p (i + 1) ≤ totalValidLen p :=
      prefixLen_mono p (i + 1) (getSlotCount p) (by omega)
    omega
  have hvalid2 : isSlotValid (specSlotAt p2 i) = true := by
    rw [hslot2]
    simp only [isSlotValid, Bool.and_eq_true, ne_eq, decide_eq_true_eq] at hv ⊢
    exact ⟨hv.1, by omega⟩
  refine ⟨hvalid2, ?_⟩
  have hrow1 : p.row i = .ok (sliceList p.data (specSlotAt p i).1 (specSlotAt p i).2) := by
    unfold Page.row
    rw [slotRef_eq_specSlotAt p hCons i hi]
    simp only [Res.monad_bind_eq_bind, Res.bind_ok]
    rw [if_neg (by omega)]
  have hCons2 : getFreeEnd p2 + 1 + SLOT_SIZE * getSlotCount p2 = PAGE_SIZE := by
    rw [hfe, hsc]
    exact hCons
  have hi2 : i < getSlotCount p2 := by rw [hsc]; exact hi
  have hrow2 : p2.row i =
      .ok (sliceList p2.data (HEADER_SIZE + prefixLen p i) (specSlotAt p i).2) := by
    unfold Page.row
    rw [slotRef_eq_specSlotAt p2 hCons2 i hi2, hslot2]
    simp only [Res.monad_bind_eq_bind, Res.bind_ok]
    rw [if_neg (by omega)]
  rw [hrow1, hrow2]
  congr 1
  apply sliceList_congr
  intro k hk
  exact hdataN i hi hv k hk

/-- C5 (amended): on every well-formed page whose valid rows and header fit
below `free_end`, after `compact()` the valid rows sit consecutively from
`HEADER_SIZE` in slot-index order (slot `i`'s offset becomes `HEADER_SIZE`
plus the total length of the valid slots below `i`), `free_start` becomes
`HEADER_SIZE` plus the total valid length — and `can_compact` is left
unchanged, not cleared. -/
theorem c5_compact_layout (p : Page) (hWF : pageWF p)
    (hTot : HEADER_SIZE + totalValidLen p ≤ getFreeEnd p) :
    ∃ p2, p.compact = .ok p2 ∧
      getFreeStart p2 = HEADER_SIZE + totalValidLen p ∧
      (∀ i, i < getSlotCount p → isSlotValid (specSlotAt p i) = true →
        specSlotAt p2 i = (HEADER_SIZE + prefixLen p i, (specSlotAt p i).2)) ∧
      getCanCompact p2 = getCanCompact p := by
  obtain ⟨p2, hok, hfs, hsc, hfe, hsp, hcc, hvN, hinvN, hdataN⟩ :=
    compact_main p hWF hTot
  exact ⟨p2, hok, hfs, hvN, hcc⟩

theorem fragPage_wf : pageWF fragPage := by
  refine ⟨by decide, by decide, by decide, ?_, by decide⟩
  have hbase : ∀ k,
      (fun k => if 200 ≤ k ∧ k < 210 then (9 : Nat)
        else if 96 ≤ k ∧ k < 146 then 8 else 0) k < 256 := by
    intro k
    dsimp only
    split
    · omega
    · split
      · omega
      · omega
  have hdata : fragPage.data =
      writeU16 (writeU16 (writeU16 (writeU16 (writeU16 (writeU16 (writeU16
        (fun k => if 200 ≤ k ∧ k < 210 then 9 else if 96 ≤ k ∧ k < 146 then 8 else 0)
        SLOT_COUNT_OFF 2) FREE_START_OFF 300) FREE_END_OFF 4087)
        4092 200) 4094 10) 4088 96) 4090 50 := rfl
  rw [hdata]
  exact writeU16_lt_256 _ _ _ (writeU16_lt_256 _ _ _ (writeU16_lt_256 _ _ _
    (writeU16_lt_256 _ _ _ (writeU16_lt_256 _ _ _ (writeU16_lt_256 _ _ _
    (writeU16_lt_256 _ _ _ hbase))))))

/-- C4 witness: the theorem applied to the fragmented two-row page. -/
theorem c4_compact_preserves_rows_witness :
    ∃ p2, fragPage.compact = .ok p2 ∧
      ∀ i, i < getSlotCount fragPage → isSlotValid (specSlotAt fragPage i) = true →
        isSlotValid (specSlotAt p2 i) = true ∧ p2.row i = fragPage.row i :=
  c4_compact_preserves_rows fragPage fragPage_wf (by decide)

/-- C5 witness: the theorem applied to the fragmented two-row page. -/
theorem c5_compact_layout_witness :
    ∃ p2, fragPage.compact = .ok p2 ∧
      getFreeStart p2 = HEADER_SIZE + totalValidLen fragPage ∧
      (∀ i, i < getSlotCount fragPage → isSlotValid (specSlotAt fragPage i) = true →
        specSlotAt p2 i = (HEADER_SIZE + prefixLen fragPage i, (specSlotAt fragPage i).2)) ∧
      getCanCompact p2 = getCanCompact fragPage :=
  c5_compact_layout fragPage fragPage_wf (by decide)

/-! ### C10: `new_page` / `allocate_new_page` -/

theorem claimFreeFrame_eq_none_iff (pid : PageId) (l : List BufferFrame) :
    claimFreeFrame pid l = none ↔ ∀ f ∈ l, f.framePageId ≠ none := by
  induction l with
  | nil => simp [claimFreeFrame]
  | cons f rest ih =>
    by_cases h : f.framePageId = none
    · simp [claimFreeFrame, h]
    · rw [claimFreeFrame]
      rw [if_neg h]
      constructor
      · intro hc g hg
        rcases List.mem_cons.mp hg with hg | hg
        · exact fun hn => h (hg ▸ hn)
        · revert hc
          rcases hr : claimFreeFrame pid rest with _ | ⟨j, rest2⟩
          · intro _
            exact (ih.mp hr) g hg
          · intro hc
            exact absurd hc (by simp)
      · intro hall
        have hr : claimFreeFrame pid rest = none :=
          ih.mpr (fun g hg => hall g (List.mem_cons_of_mem _ hg))
        rw [hr]

theorem claimFreeFrame_ok (pid : PageId) (l : List BufferFrame)
    (fid : Nat) (l2 : List BufferFrame)
    (h : claimFreeFrame pid l = some (fid, l2)) :
    fid < l.length ∧
    (l.getD fid default).framePageId = none ∧
    (∀ j, j < fid → (l.getD j default).framePageId ≠ none) ∧
    l2.getD fid default =
      { l.getD fid default with framePageId := some pid,
                                pinCount := 1, dirty := false } ∧
    (∀ j, j ≠ fid → l2.getD j default = l.getD j default) := by
  induction l generalizing fid l2 with
  | nil => exact absurd h (by simp [claimFreeFrame])
  | cons f rest ih =>
    by_cases hf : f.framePageId = none
    · rw [claimFreeFrame, if_pos hf] at h
      have h1 : fid = 0 := by
        have := congrArg (fun x => (Option.map Prod.fst x)) h
        simpa using this.symm
      subst h1
      have h2 : l2 = { f with framePageId := some pid,
                              pinCount := 1, dirty := false } :: rest := by
        have := congrArg (fun x => (Option.map Prod.snd x)) h
        simpa using this.symm
      subst h2
      refine ⟨by simp, by simpa using hf, by omega, by simp, ?_⟩
      intro j hj
      match j with
      | 0 => exact absurd rfl hj
      | j + 1 => simp [List.getD_cons_succ]
    · rw [claimFreeFrame, if_neg hf] at h
      rcases hr : claimFreeFrame pid rest with _ | ⟨j0, rest2⟩
      · rw [hr] at h
        exact absurd h (by simp)
      · rw [hr] at h
        have h1 : fid = j0 + 1 ∧ l2 = f :: rest2 := by
          constructor
          · have := congrArg (fun x => (Option.map Prod.fst x)) h
            simpa using this.symm
          · have := congrArg (fun x => (Option.map Prod.snd x)) h
            simpa using this.symm
        obtain ⟨h1a, h1b⟩ := h1
        subst h1a; subst h1b
        obtain ⟨ih1, ih2, ih3, ih4, ih5⟩ := ih j0 rest2 hr
        refine ⟨by simpa using ih1, by simpa using ih2, ?_, by simpa using ih4, ?_⟩
        · intro j hj
          match j with
          | 0 => simpa using hf
          | j + 1 =>
            simp only [List.getD_cons_succ]
            exact ih3 j (by omega)
        · intro j hj
          match j with
          | 0 => simp
          | j + 1 =>
            simp only [List.getD_cons_succ]
            exact ih5 j (by omega)

/-- C10: amended contract of `new_page`.  `allocate_new_page` fails with
`BufferFull` exactly when every frame already has a page id; otherwise it
claims the first frame whose page id is `None` (setting its page id, pin
count 1, dirty false), leaves every other frame untouched, inserts the
page-map entry directly in `Ready(frame_id)`, and `StorageManager::new_page`
returns that frame — whose page bytes are whatever the frame last held
(the claimed frame is NOT zeroed; the caller must initialize it). -/
theorem c10_allocate_new_page (bm : BufferManager) (pid : PageId) :
    (allocateNewPage bm pid = .error .bufferFull ↔
      ∀ f ∈ bm.frames, f.framePageId ≠ none) ∧
    (∀ fid bm2, allocateNewPage bm pid = .ok (fid, bm2) →
      fid < bm.frames.length ∧
      (frameAt bm fid).framePageId = none ∧
      (∀ j, j < fid → (frameAt bm j).framePageId ≠ none) ∧
      frameAt bm2 fid =
        { frameAt bm fid with framePageId := some pid,
                              pinCount := 1, dirty := false } ∧
      (∀ j, j ≠ fid → frameAt bm2 j = frameAt bm j) ∧
      mapLookup bm2.pageMap pid = some (.ready fid) ∧
      storageNewPage bm pid = .ok (fid, bm2)) := by
  constructor
  · rw [← claimFreeFrame_eq_none_iff pid]
    unfold allocateNewPage
    rcases hc : claimFreeFrame pid bm.frames with _ | ⟨j, l2⟩ <;> simp
  · intro fid bm2 h
    unfold allocateNewPage at h
    rcases hc : claimFreeFrame pid bm.frames with _ | ⟨j, l2⟩
    · rw [hc] at h
      exact absurd h (by simp)
    · rw [hc] at h
      have hj : j = fid := by
        have := congrArg (fun x => match x with
          | Except.ok (y : Nat × BufferManager) => some y.1
          | Except.error _ => none) h
        simpa using this
      subst hj
      have hbm2 : bm2 = { frames := l2,
                          pageMap := (pid, PageState.ready j) :: bm.pageMap } := by
        have := congrArg (fun x => match x with
          | Except.ok (y : Nat × BufferManager) => some y.2
          | Except.error _ => none) h
        simpa using this.symm
      obtain ⟨h1, h2, h3, h4, h5⟩ := claimFreeFrame_ok pid bm.frames j l2 hc
      subst hbm2
      refine ⟨h1, h2, h3, h4, h5, ?_, ?_⟩
      · simp [mapLookup, List.find?]
      · unfold storageNewPage allocateNewPage
        rw [hc]

/-- Witness for `c10_allocate_new_page` on the concrete post-rollback
buffer state. -/
theorem c10_allocate_new_page_witness :
    (frameAt allocAfterRollback 0).framePageId = some pidB ∧
    mapLookup allocAfterRollback.pageMap pidB = some (.ready 0) := by
  have h := (c10_allocate_new_page rolledBackBm pidB).2 0 allocAfterRollback rfl
  exact ⟨by rw [h.2.2.2.1], h.2.2.2.2.2.1⟩

/-- C10 counterexample: the claimed frame is not zeroed.  A one-frame
pool suffers a failed load of `pidA` in which the file manager deposits
the byte 5 before reporting failure (legal `FileManager` behaviour,
exhibited by `DiskFileManager` on a short read); the rollback clears the
frame's page id, so `new_page(pidB)` succeeds — returning a frame whose
page byte 0 is 5, not 0. -/
theorem c10_new_page_frame_not_zeroed :
    (getOrLoadBufferedPage partialFailFm (BufferManager.new 1) pidA).errOf
        = some (.ioReadFailed pidA) ∧
    (frameAt rolledBackBm 0).framePageId = none ∧
    (storageNewPage rolledBackBm pidB).toOption.map Prod.fst = some 0 ∧
    (frameAt allocAfterRollback 0).page.data 0 = 5 ∧ (5 : Nat) ≠ 0 := by
  refine ⟨by decide, by decide, ?_, by decide, by decide⟩
  have h := (c10_allocate_new_page rolledBackBm pidB).2 0 allocAfterRollback rfl
  rw [h.2.2.2.2.2.2]
  rfl

/-! ### C8/C9: the loader protocol -/

theorem list_get_set_self (l : List TPC) (t : Nat) (a : TPC)
    (h : t < l.length) : (l.set t a).get? t = some a :=
  List.get?_set_eq_of_lt a h

theorem list_get_set_other {α : Type} (l : List α) (t i : Nat) (a : α)
    (h : i ≠ t) : (l.set t a).get? i = l.get? i :=
  List.get?_set_ne a l (fun he => h he.symm)

theorem get_some_lt {α : Type} (l : List α) (i : Nat) (a : α)
    (h : l.get? i = some a) : i < l.length := by
  by_contra hh
  rw [List.get?_len_le (by omega)] at h
  cases h

theorem get_replicate_eq {α : Type} (a b : α) (n i : Nat)
    (h : (List.replicate n a).get? i = some b) : b = a := by
  induction n generalizing i with
  | zero => cases h
  | succ n ih =>
    match i with
    | 0 =>
      rw [List.replicate_succ] at h
      exact (Option.some.inj h).symm
    | i + 1 =>
      rw [List.replicate_succ] at h
      exact ih i h

theorem threads_get_set (l : List TPC) (t : Nat) (pc2 : TPC)
    (ht : t < l.length) (i : Nat) :
    (l.set t pc2).get? i = if i = t then some pc2 else l.get? i := by
  by_cases h : i = t
  · subst h
    rw [if_pos rfl]
    exact List.get?_set_eq_of_lt pc2 ht
  · rw [if_neg h]
    exact List.get?_set_ne pc2 l (fun he => h he.symm)

theorem firstFree_spec (l : List (Option PageId)) (fid : Nat)
    (h : firstFree l = some fid) :
    fid < l.length ∧ l.get? fid = some none := by
  induction l generalizing fid with
  | nil => cases h
  | cons o rest ih =>
    cases o with
    | none =>
      simp only [firstFree] at h
      cases h
      exact ⟨by simp, rfl⟩
    | some q =>
      simp only [firstFree] at h
      rcases Option.map_eq_some'.mp h with ⟨j, hj, hfid⟩
      obtain ⟨ih1, ih2⟩ := ih j hj
      subst hfid
      refine ⟨?_, ih2⟩
      simp only [List.length_cons]
      omega

theorem protoInv_init (p : PageId) (ioOk : Bool) (m n : Nat) :
    ProtoInv p ioOk n (protoInit m n) := by
  refine ⟨?_, ?_, ?_, ?_, ?_, ?_, ?_, ?_, ?_, ?_, ?_, ?_⟩
  · simp [protoInit]
  · intro t pc hpc hl
    have hst := get_replicate_eq TPC.start pc n t hpc
    subst hst
    rcases hl with h | ⟨f, h⟩ | ⟨f, h⟩ | h | ⟨q, h⟩ <;> exact TPC.noConfusion h
  · intro _
    exact ⟨rfl, rfl⟩
  · intro _
    rfl
  · intro t h
    exact Option.noConfusion h
  · intro t pc h _ _
    exact Option.noConfusion h
  · intro i f h
    exact TPC.noConfusion (get_replicate_eq TPC.start _ n i h)
  · intro f h
    exact Option.noConfusion h
  · intro i q h
    exact TPC.noConfusion (get_replicate_eq TPC.start _ n i h)
  · intro j q h
    exact Option.noConfusion (get_replicate_eq none _ m j h)
  · intro _ t f
    constructor <;> intro h <;>
      exact TPC.noConfusion (get_replicate_eq TPC.start _ n t h)
  · intro _ f h
    exact Option.noConfusion h

theorem protoInv_passive (p : PageId) (ioOk : Bool) (n : Nat)
    (c : ProtoConfig) (t : Nat) (pc pc2 : TPC)
    (hI : ProtoInv p ioOk n c) (hpc : c.threads.get? t = some pc)
    (hold : pc = .start ∨ pc = .recheck)
    (hnew : pc2 = .waiting ∨ pc2 = .recheck) :
    ProtoInv p ioOk n ⟨c.shared, c.threads.set t pc2⟩ := by
  have ht : t < c.threads.length := get_some_lt _ _ _ hpc
  have hg : ∀ i, (c.threads.set t pc2).get? i =
      if i = t then some pc2 else c.threads.get? i := threads_get_set _ t pc2 ht
  have hnotloader : c.shared.loader ≠ some t := by
    intro hl
    obtain ⟨pc', hpc', hcase⟩ := hI.loaderSome t hl
    rw [hpc] at hpc'
    cases Option.some.inj hpc'
    rcases hold with rfl | rfl <;>
      rcases hcase with ⟨_, h | ⟨f, h⟩ | h⟩ | ⟨_, ⟨f, h⟩ | ⟨q, h⟩ | ⟨f, h⟩⟩ <;>
      exact TPC.noConfusion h
  refine ⟨?_, ?_, ?_, ?_, ?_, ?_, ?_, ?_, ?_, ?_, ?_, ?_⟩
  · show (c.threads.set t pc2).length = n
    rw [List.length_set]
    exact hI.tlen
  · intro i pci hpci hli
    rw [hg i] at hpci
    by_cases hit : i = t
    · rw [if_pos hit] at hpci
      cases Option.some.inj hpci
      rcases hnew with rfl | rfl <;>
        rcases hli with h | ⟨f, h⟩ | ⟨f, h⟩ | h | ⟨q, h⟩ <;>
        exact TPC.noConfusion h
    · rw [if_neg hit] at hpci
      exact hI.loaderish i pci hpci hli
  · exact hI.loaderNone
  · exact hI.entryNone
  · intro t' hl
    have hneq : t' ≠ t := fun he => hnotloader (he ▸ hl)
    obtain ⟨pc', hpc', hc⟩ := hI.loaderSome t' hl
    refine ⟨pc', ?_, hc⟩
    rw [hg t', if_neg hneq]
    exact hpc'
  · intro t' pci hl hpci htrio
    have hneq : t' ≠ t := fun he => hnotloader (he ▸ hl)
    rw [hg t', if_neg hneq] at hpci
    exact hI.loaderEntry t' pci hl hpci htrio
  · intro i f hpci
    rw [hg i] at hpci
    by_cases hit : i = t
    · rw [if_pos hit] at hpci
      have h := Option.some.inj hpci
      rcases hnew with rfl | rfl <;> exact TPC.noConfusion h
    · rw [if_neg hit] at hpci
      exact hI.doneEntry i f hpci
  · exact hI.readyLog
  · intro i q hpci
    rw [hg i] at hpci
    by_cases hit : i = t
    · rw [if_pos hit] at hpci
      have h := Option.some.inj hpci
      rcases hnew with rfl | rfl <;> exact TPC.noConfusion h
    · rw [if_neg hit] at hpci
      exact hI.failEntry i q hpci
  · intro j q hj
    obtain ⟨hq, t', pc', hl, hpc', hdisj⟩ := hI.framesClean j q hj
    have hneq : t' ≠ t := fun he => hnotloader (he ▸ hl)
    refine ⟨hq, t', pc', hl, ?_, hdisj⟩
    rw [hg t', if_neg hneq]
    exact hpc'
  · intro hio i f
    constructor <;> intro hpci <;> rw [hg i] at hpci
    · by_cases hit : i = t
      · rw [if_pos hit] at hpci
        have h := Option.some.inj hpci
        rcases hnew with rfl | rfl <;> exact TPC.noConfusion h
      · rw [if_neg hit] at hpci
        exact (hI.noPubIfFail hio i f).1 hpci
    · by_cases hit : i = t
      · rw [if_pos hit] at hpci
        have h := Option.some.inj hpci
        rcases hnew with rfl | rfl <;> exact TPC.noConfusion h
      · rw [if_neg hit] at hpci
        exact (hI.noPubIfFail hio i f).2 hpci
  · exact hI.noReadyIfFail

theorem protoInv_step (p : PageId) (ioOk : Bool) (n : Nat)
    (c c2 : ProtoConfig) (t : Nat) (hI : ProtoInv p ioOk n c)
    (hs : protoStep p ioOk c t = some c2) : ProtoInv p ioOk n c2 := by
  unfold protoStep at hs
  split at hs
  · exact Option.noConfusion hs
  rename_i pc hpc
  split at hs
  · exact Option.noConfusion hs
  rename_i sh2 pc2 hparts
  cases hs
  have ht : t < c.threads.length := get_some_lt _ _ _ hpc
  cases pc with
  | doneFrame f =>
    simp only [protoStepParts] at hparts
    exact Option.noConfusion hparts
  | doneBufferFull =>
    simp only [protoStepParts] at hparts
    exact Option.noConfusion hparts
  | doneIoFailed q =>
    simp only [protoStepParts] at hparts
    exact Option.noConfusion hparts
  | start =>
    simp only [protoStepParts] at hparts
    split at hparts <;>
      simp only [Option.some.injEq, Prod.mk.injEq] at hparts <;>
      obtain ⟨rfl, rfl⟩ := hparts
    · exact protoInv_passive p ioOk n c t _ _ hI hpc (Or.inl rfl) (Or.inl rfl)
    · exact protoInv_passive p ioOk n c t _ _ hI hpc (Or.inl rfl) (Or.inr rfl)
  | recheck =>
    simp only [protoStepParts] at hparts
    split at hparts
    · simp only [Option.some.injEq, Prod.mk.injEq] at hparts
      obtain ⟨rfl, rfl⟩ := hparts
      exact protoInv_passive p ioOk n c t _ _ hI hpc (Or.inr rfl) (Or.inl rfl)
    · rename_i hentry
      simp only [Option.some.injEq, Prod.mk.injEq] at hparts
      obtain ⟨rfl, rfl⟩ := hparts
      have hldr : c.shared.loader = none := hI.entryNone hentry
      have hlog : c.shared.readerLog = [] := (hI.loaderNone hldr).2
      have hg := threads_get_set c.threads t .claiming ht
      have hnold : ∀ i pci, c.threads.get? i = some pci →
          (pci = .claiming ∨ (∃ f, pci = .reading f) ∨
            (∃ f, pci = .publishing f) ∨ pci = .doneBufferFull ∨
            (∃ q, pci = .doneIoFailed q)) → False := by
        intro i pci h1 h2
        have h3 := hI.loaderish i pci h1 h2
        rw [hldr] at h3
        exact Option.noConfusion h3
      refine ⟨?_, ?_, ?_, ?_, ?_, ?_, ?_, ?_, ?_, ?_, ?_, ?_⟩
      all_goals try dsimp only
      · rw [List.length_set]
        exact hI.tlen
      · intro i pci hpci hli
        rw [hg i] at hpci
        by_cases hit : i = t
        · rw [hit]
        · rw [if_neg hit] at hpci
          exact (hnold i pci hpci hli).elim
      · intro h
        exact Option.noConfusion h
      · intro h
        exact Option.noConfusion h
      · intro t' hl
        cases Option.some.inj hl
        refine ⟨.claiming, ?_, Or.inl ⟨hlog, Or.inl rfl⟩⟩
        rw [hg t, if_pos rfl]
      · intro t' pci hl hpci htrio
        rfl
      · intro i f hpci
        rw [hg i] at hpci
        by_cases hit : i = t
        · rw [if_pos hit] at hpci
          exact TPC.noConfusion (Option.some.inj hpci)
        · rw [if_neg hit] at hpci
          have h2 := hI.doneEntry i f hpci
          rw [hentry] at h2
          exact Option.noConfusion h2
      · intro f hf
        exact PageState.noConfusion (Option.some.inj hf)
      · intro i q hpci
        rw [hg i] at hpci
        by_cases hit : i = t
        · rw [if_pos hit] at hpci
          exact TPC.noConfusion (Option.some.inj hpci)
        · rw [if_neg hit] at hpci
          obtain ⟨_, h2⟩ := hI.failEntry i q hpci
          rw [hentry] at h2
          exact Option.noConfusion h2
      · intro j q hj
        obtain ⟨hq, t', pc', hl, _, _⟩ := hI.framesClean j q hj
        rw [hldr] at hl
        exact Option.noConfusion hl
      · intro hio i f
        constructor <;> intro hpci <;> rw [hg i] at hpci
        · by_cases hit : i = t
          · rw [if_pos hit] at hpci
            exact TPC.noConfusion (Option.some.inj hpci)
          · rw [if_neg hit] at hpci
            exact (hI.noPubIfFail hio i f).1 hpci
        · by_cases hit : i = t
          · rw [if_pos hit] at hpci
            exact TPC.noConfusion (Option.some.inj hpci)
          · rw [if_neg hit] at hpci
            exact (hI.noPubIfFail hio i f).2 hpci
      · intro hio f hf
        exact PageState.noConfusion (Option.some.inj hf)
  | waiting =>
    simp only [protoStepParts] at hparts
    split at hparts
    · rename_i fid hentry
      simp only [Option.some.injEq, Prod.mk.injEq] at hparts
      obtain ⟨rfl, rfl⟩ := hparts
      have hg := threads_get_set c.threads t (.doneFrame fid) ht
      have hnotloader : c.shared.loader ≠ some t := by
        intro hl
        obtain ⟨pc', hpc', hcase⟩ := hI.loaderSome t hl
        rw [hpc] at hpc'
        cases Option.some.inj hpc'
        rcases hcase with ⟨_, h | ⟨f, h⟩ | h⟩ | ⟨_, ⟨f, h⟩ | ⟨q, h⟩ | ⟨f, h⟩⟩ <;>
          exact TPC.noConfusion h
      refine ⟨?_, ?_, ?_, ?_, ?_, ?_, ?_, ?_, ?_, ?_, ?_, ?_⟩
      all_goals try dsimp only
      · rw [List.length_set]
        exact hI.tlen
      · intro i pci hpci hli
        rw [hg i] at hpci
        by_cases hit : i = t
        · rw [if_pos hit] at hpci
          cases Option.some.inj hpci
          rcases hli with h | ⟨f, h⟩ | ⟨f, h⟩ | h | ⟨q, h⟩ <;>
            exact TPC.noConfusion h
        · rw [if_neg hit] at hpci
          exact hI.loaderish i pci hpci hli
      · exact hI.loaderNone
      · exact hI.entryNone
      · intro t' hl
        have hneq : t' ≠ t := fun he => hnotloader (he ▸ hl)
        obtain ⟨pc', hpc', hc⟩ := hI.loaderSome t' hl
        refine ⟨pc', ?_, hc⟩
        rw [hg t', if_neg hneq]
        exact hpc'
      · intro t' pci hl hpci htrio
        have hneq : t' ≠ t := fun he => hnotloader (he ▸ hl)
        rw [hg t', if_neg hneq] at hpci
        exact hI.loaderEntry t' pci hl hpci htrio
      · intro i f hpci
        rw [hg i] at hpci
        by_cases hit : i = t
        · rw [if_pos hit] at hpci
          cases TPC.doneFrame.inj (Option.some.inj hpci)
          exact hentry
        · rw [if_neg hit] at hpci
          exact hI.doneEntry i f hpci
      · exact hI.readyLog
      · intro i q hpci
        rw [hg i] at hpci
        by_cases hit : i = t
        · rw [if_pos hit] at hpci
          exact TPC.noConfusion (Option.some.inj hpci)
        · rw [if_neg hit] at hpci
          exact hI.failEntry i q hpci
      · intro j q hj
        obtain ⟨hq, t', pc', hl, hpc', hdisj⟩ := hI.framesClean j q hj
        have hneq : t' ≠ t := fun he => hnotloader (he ▸ hl)
        refine ⟨hq, t', pc', hl, ?_, hdisj⟩
        rw [hg t', if_neg hneq]
        exact hpc'
      · intro hio i f
        exact absurd hentry (hI.noReadyIfFail hio fid)
      · intro hio f hf
        exact absurd hentry (hI.noReadyIfFail hio fid)
    · exact Option.noConfusion hparts
  | claiming =>
    simp only [protoStepParts] at hparts
    have hldr : c.shared.loader = some t := hI.loaderish t _ hpc (Or.inl rfl)
    obtain ⟨pc', hpc', hcase⟩ := hI.loaderSome t hldr
    rw [hpc] at hpc'
    cases Option.some.inj hpc'
    have hlog : c.shared.readerLog = [] := by
      rcases hcase with ⟨h1, _⟩ | ⟨_, ⟨f, h⟩ | ⟨q, h⟩ | ⟨f, h⟩⟩
      · exact h1
      all_goals exact TPC.noConfusion h
    have hentry : c.shared.entry = some .loading :=
      hI.loaderEntry t _ hldr hpc (Or.inl rfl)
    split at hparts
    · rename_i fid hff
      simp only [Option.some.injEq, Prod.mk.injEq] at hparts
      obtain ⟨rfl, rfl⟩ := hparts
      obtain ⟨hfl, hfv⟩ := firstFree_spec _ _ hff
      have hg := threads_get_set c.threads t (.reading fid) ht
      refine ⟨?_, ?_, ?_, ?_, ?_, ?_, ?_, ?_, ?_, ?_, ?_, ?_⟩
      all_goals try dsimp only
      · rw [List.length_set]
        exact hI.tlen
      · intro i pci hpci hli
        rw [hg i] at hpci
        by_cases hit : i = t
        · rw [hit]
          exact hldr
        · rw [if_neg hit] at hpci
          exact hI.loaderish i pci hpci hli
      · intro h
        rw [hldr] at h
        exact Option.noConfusion h
      · intro h
        rw [hentry] at h
        exact Option.noConfusion h
      · intro t' hl
        have hl2 : c.shared.loader = some t' := hl
        rw [hldr] at hl2
        cases Option.some.inj hl2
        refine ⟨.reading fid, ?_, Or.inl ⟨hlog, Or.inr (Or.inl ⟨fid, rfl⟩)⟩⟩
        rw [hg t, if_pos rfl]
      · intro t' pci hl hpci htrio
        exact hentry
      · intro i f hpci
        rw [hg i] at hpci
        by_cases hit : i = t
        · rw [if_pos hit] at hpci
          exact TPC.noConfusion (Option.some.inj hpci)
        · rw [if_neg hit] at hpci
          exact hI.doneEntry i f hpci
      · exact hI.readyLog
      · intro i q hpci
        rw [hg i] at hpci
        by_cases hit : i = t
        · rw [if_pos hit] at hpci
          exact TPC.noConfusion (Option.some.inj hpci)
        · rw [if_neg hit] at hpci
          exact hI.failEntry i q hpci
      · intro j q hj
        by_cases hjf : j = fid
        · subst hjf
          rw [List.get?_set_eq_of_lt (some p) hfl] at hj
          refine ⟨(Option.some.inj (Option.some.inj hj)).symm, t, .reading j, hldr, ?_, Or.inl rfl⟩
          rw [hg t, if_pos rfl]
        · rw [list_get_set_other _ _ _ _ hjf] at hj
          obtain ⟨hq, t'', pc'', hl'', hpc'', hdisj⟩ := hI.framesClean j q hj
          rw [hldr] at hl''
          cases Option.some.inj hl''
          rw [hpc] at hpc''
          cases Option.some.inj hpc''
          rcases hdisj with h | h | h <;> exact TPC.noConfusion h
      · intro hio i f
        constructor <;> intro hpci <;> rw [hg i] at hpci
        · by_cases hit : i = t
          · rw [if_pos hit] at hpci
            exact TPC.noConfusion (Option.some.inj hpci)
          · rw [if_neg hit] at hpci
            exact (hI.noPubIfFail hio i f).1 hpci
        · by_cases hit : i = t
          · rw [if_pos hit] at hpci
            exact TPC.noConfusion (Option.some.inj hpci)
          · rw [if_neg hit] at hpci
            exact (hI.noPubIfFail hio i f).2 hpci
      · exact hI.noReadyIfFail
    · rename_i hff
      simp only [Option.some.injEq, Prod.mk.injEq] at hparts
      obtain ⟨rfl, rfl⟩ := hparts
      have hg := threads_get_set c.threads t .doneBufferFull ht
      refine ⟨?_, ?_, ?_, ?_, ?_, ?_, ?_, ?_, ?_, ?_, ?_, ?_⟩
      all_goals try dsimp only
      · rw [List.length_set]
        exact hI.tlen
      · intro i pci hpci hli
        rw [hg i] at hpci
        by_cases hit : i = t
        · rw [hit]
          exact hldr
        · rw [if_neg hit] at hpci
          exact hI.loaderish i pci hpci hli
      · intro h
        rw [hldr] at h
        exact Option.noConfusion h
      · intro h
        rw [hentry] at h
        exact Option.noConfusion h
      · intro t' hl
        have hl2 : c.shared.loader = some t' := hl
        rw [hldr] at hl2
        cases Option.some.inj hl2
        refine ⟨.doneBufferFull, ?_, Or.inl ⟨hlog, Or.inr (Or.inr rfl)⟩⟩
        rw [hg t, if_pos rfl]
      · intro t' pci hl hpci htrio
        exact hentry
      · intro i f hpci
        rw [hg i] at hpci
        by_cases hit : i = t
        · rw [if_pos hit] at hpci
          exact TPC.noConfusion (Option.some.inj hpci)
        · rw [if_neg hit] at hpci
          exact hI.doneEntry i f hpci
      · exact hI.readyLog
      · intro i q hpci
        rw [hg i] at hpci
        by_cases hit : i = t
        · rw [if_pos hit] at hpci
          exact TPC.noConfusion (Option.some.inj hpci)
        · rw [if_neg hit] at hpci
          exact hI.failEntry i q hpci
      · intro j q hj
        obtain ⟨hq, t'', pc'', hl'', hpc'', hdisj⟩ := hI.framesClean j q hj
        rw [hldr] at hl''
        cases Option.some.inj hl''
        rw [hpc] at hpc''
        cases Option.some.inj hpc''
        rcases hdisj with h | h | h <;> exact TPC.noConfusion h
      · intro hio i f
        constructor <;> intro hpci <;> rw [hg i] at hpci
        · by_cases hit : i = t
          · rw [if_pos hit] at hpci
            exact TPC.noConfusion (Option.some.inj hpci)
          · rw [if_neg hit] at hpci
            exact (hI.noPubIfFail hio i f).1 hpci
        · by_cases hit : i = t
          · rw [if_pos hit] at hpci
            exact TPC.noConfusion (Option.some.inj hpci)
          · rw [if_neg hit] at hpci
            exact (hI.noPubIfFail hio i f).2 hpci
      · exact hI.noReadyIfFail
  | reading fid =>
    simp only [protoStepParts] at hparts
    have hldr : c.shared.loader = some t :=
      hI.loaderish t _ hpc (Or.inr (Or.inl ⟨fid, rfl⟩))
    obtain ⟨pc', hpc', hcase⟩ := hI.loaderSome t hldr
    rw [hpc] at hpc'
    cases Option.some.inj hpc'
    have hlog : c.shared.readerLog = [] := by
      rcases hcase with ⟨h1, _⟩ | ⟨_, ⟨f, h⟩ | ⟨q, h⟩ | ⟨f, h⟩⟩
      · exact h1
      all_goals exact TPC.noConfusion h
    have hentry : c.shared.entry = some .loading :=
      hI.loaderEntry t _ hldr hpc (Or.inr (Or.inl ⟨fid, rfl⟩))
    have hlogt : c.shared.readerLog ++ [t] = [t] := by
      rw [hlog]
      rfl
    split at hparts
    · rename_i hio
      simp only [Option.some.injEq, Prod.mk.injEq] at hparts
      obtain ⟨rfl, rfl⟩ := hparts
      have hg := threads_get_set c.threads t (.publishing fid) ht
      refine ⟨?_, ?_, ?_, ?_, ?_, ?_, ?_, ?_, ?_, ?_, ?_, ?_⟩
      all_goals try dsimp only
      · rw [List.length_set]
        exact hI.tlen
      · intro i pci hpci hli
        rw [hg i] at hpci
        by_cases hit : i = t
        · rw [hit]
          exact hldr
        · rw [if_neg hit] at hpci
          exact hI.loaderish i pci hpci hli
      · intro h
        rw [hldr] at h
        exact Option.noConfusion h
      · intro h
        rw [hentry] at h
        exact Option.noConfusion h
      · intro t' hl
        have hl2 : c.shared.loader = some t' := hl
        rw [hldr] at hl2
        cases Option.some.inj hl2
        refine ⟨.publishing fid, ?_, Or.inr ⟨hlogt, Or.inl ⟨fid, rfl⟩⟩⟩
        rw [hg t, if_pos rfl]
      · intro t' pci hl hpci htrio
        exact hentry
      · intro i f hpci
        rw [hg i] at hpci
        by_cases hit : i = t
        · rw [if_pos hit] at hpci
          exact TPC.noConfusion (Option.some.inj hpci)
        · rw [if_neg hit] at hpci
          exact hI.doneEntry i f hpci
      · intro f hf
        have hf2 : c.shared.entry = some (.ready f) := hf
        rw [hentry] at hf2
        exact PageState.noConfusion (Option.some.inj hf2)
      · intro i q hpci
        rw [hg i] at hpci
        by_cases hit : i = t
        · rw [if_pos hit] at hpci
          exact TPC.noConfusion (Option.some.inj hpci)
        · rw [if_neg hit] at hpci
          exact hI.failEntry i q hpci
      · intro j q hj
        obtain ⟨hq, t'', pc'', hl'', hpc'', hdisj⟩ := hI.framesClean j q hj
        rw [hldr] at hl''
        cases Option.some.inj hl''
        rw [hpc] at hpc''
        cases Option.some.inj hpc''
        rcases hdisj with h | h | h
        · cases TPC.reading.inj h
          refine ⟨hq, t, .publishing fid, hldr, ?_, Or.inr (Or.inl rfl)⟩
          rw [hg t, if_pos rfl]
        · exact TPC.noConfusion h
        · exact TPC.noConfusion h
      · intro hfail i f
        rw [hfail] at hio
        exact Bool.noConfusion hio
      · exact hI.noReadyIfFail
    · rename_i hio
      have hio2 : ioOk = false := by
        cases ioOk with
        | false => rfl
        | true => exact absurd rfl hio
      simp only [Option.some.injEq, Prod.mk.injEq] at hparts
      obtain ⟨rfl, rfl⟩ := hparts
      have hg := threads_get_set c.threads t (.doneIoFailed p) ht
      refine ⟨?_, ?_, ?_, ?_, ?_, ?_, ?_, ?_, ?_, ?_, ?_, ?_⟩
      all_goals try dsimp only
      · rw [List.length_set]
        exact hI.tlen
      · intro i pci hpci hli
        rw [hg i] at hpci
        by_cases hit : i = t
        · rw [hit]
          exact hldr
        · rw [if_neg hit] at hpci
          exact hI.loaderish i pci hpci hli
      · intro h
        rw [hldr] at h
        exact Option.noConfusion h
      · intro h
        rw [hentry] at h
        exact Option.noConfusion h
      · intro t' hl
        have hl2 : c.shared.loader = some t' := hl
        rw [hldr] at hl2
        cases Option.some.inj hl2
        refine ⟨.doneIoFailed p, ?_, Or.inr ⟨hlogt, Or.inr (Or.inl ⟨p, rfl⟩)⟩⟩
        rw [hg t, if_pos rfl]
      · intro t' pci hl hpci htrio
        exact hentry
      · intro i f hpci
        rw [hg i] at hpci
        by_cases hit : i = t
        · rw [if_pos hit] at hpci
          exact TPC.noConfusion (Option.some.inj hpci)
        · rw [if_neg hit] at hpci
          exact hI.doneEntry i f hpci
      · intro f hf
        have hf2 : c.shared.entry = some (.ready f) := hf
        rw [hentry] at hf2
        exact PageState.noConfusion (Option.some.inj hf2)
      · intro i q hpci
        rw [hg i] at hpci
        by_cases hit : i = t
        · rw [if_pos hit] at hpci
          exact ⟨(TPC.doneIoFailed.inj (Option.some.inj hpci)).symm, hentry⟩
        · rw [if_neg hit] at hpci
          exact hI.failEntry i q hpci
      · intro j q hj
        by_cases hjf : j = fid
        · subst hjf
          rw [List.get?_set_eq] at hj
          rcases hx : c.shared.frames.get? j with _ | x <;> rw [hx] at hj
          · exact Option.noConfusion hj
          · exact Option.noConfusion (Option.some.inj hj)
        · rw [list_get_set_other _ _ _ _ hjf] at hj
          obtain ⟨hq, t'', pc'', hl'', hpc'', hdisj⟩ := hI.framesClean j q hj
          rw [hldr] at hl''
          cases Option.some.inj hl''
          rw [hpc] at hpc''
          cases Option.some.inj hpc''
          rcases hdisj with h | h | h
          · exact absurd (TPC.reading.inj h).symm hjf
          · exact TPC.noConfusion h
          · exact TPC.noConfusion h
      · intro hfail i f
        constructor <;> intro hpci <;> rw [hg i] at hpci
        · by_cases hit : i = t
          · rw [if_pos hit] at hpci
            exact TPC.noConfusion (Option.some.inj hpci)
          · rw [if_neg hit] at hpci
            exact (hI.noPubIfFail hfail i f).1 hpci
        · by_cases hit : i = t
          · rw [if_pos hit] at hpci
            exact TPC.noConfusion (Option.some.inj hpci)
          · rw [if_neg hit] at hpci
            exact (hI.noPubIfFail hfail i f).2 hpci
      · exact hI.noReadyIfFail
  | publishing fid =>
    simp only [protoStepParts] at hparts
    simp only [Option.some.injEq, Prod.mk.injEq] at hparts
    obtain ⟨rfl, rfl⟩ := hparts
    have hldr : c.shared.loader = some t :=
      hI.loaderish t _ hpc (Or.inr (Or.inr (Or.inl ⟨fid, rfl⟩)))
    obtain ⟨pc', hpc', hcase⟩ := hI.loaderSome t hldr
    rw [hpc] at hpc'
    cases Option.some.inj hpc'
    have hlogt : c.shared.readerLog = [t] := by
      rcases hcase with ⟨_, h | ⟨f, h⟩ | h⟩ | ⟨h1, _⟩
      · exact TPC.noConfusion h
      · exact TPC.noConfusion h
      · exact TPC.noConfusion h
      · exact h1
    have hentry : c.shared.entry = some .loading :=
      hI.loaderEntry t _ hldr hpc (Or.inr (Or.inr ⟨fid, rfl⟩))
    have hnodone : ∀ i f, c.threads.get? i = some (.doneFrame f) → False := by
      intro i f h
      have h2 := hI.doneEntry i f h
      rw [hentry] at h2
      exact PageState.noConfusion (Option.some.inj h2)
    have hnofail : ∀ i q, c.threads.get? i = some (.doneIoFailed q) → False := by
      intro i q h
      have h2 := hI.loaderish i _ h (Or.inr (Or.inr (Or.inr (Or.inr ⟨q, rfl⟩))))
      rw [hldr] at h2
      cases Option.some.inj h2
      rw [hpc] at h
      exact TPC.noConfusion (Option.some.inj h)
    have hg := threads_get_set c.threads t (.doneFrame fid) ht
    refine ⟨?_, ?_, ?_, ?_, ?_, ?_, ?_, ?_, ?_, ?_, ?_, ?_⟩
    all_goals try dsimp only
    · rw [List.length_set]
      exact hI.tlen
    · intro i pci hpci hli
      rw [hg i] at hpci
      by_cases hit : i = t
      · rw [if_pos hit] at hpci
        cases Option.some.inj hpci
        rcases hli with h | ⟨f, h⟩ | ⟨f, h⟩ | h | ⟨q, h⟩ <;>
          exact TPC.noConfusion h
      · rw [if_neg hit] at hpci
        exact hI.loaderish i pci hpci hli
    · intro h
      rw [hldr] at h
      exact Option.noConfusion h
    · intro h
      exact Option.noConfusion h
    · intro t' hl
      have hl2 : c.shared.loader = some t' := hl
      rw [hldr] at hl2
      cases Option.some.inj hl2
      refine ⟨.doneFrame fid, ?_, Or.inr ⟨hlogt, Or.inr (Or.inr ⟨fid, rfl⟩)⟩⟩
      rw [hg t, if_pos rfl]
    · intro t' pci hl hpci htrio
      have hl2 : c.shared.loader = some t' := hl
      rw [hldr] at hl2
      cases Option.some.inj hl2
      rw [hg t, if_pos rfl] at hpci
      cases Option.some.inj hpci
      rcases htrio with h | ⟨f, h⟩ | ⟨f, h⟩ <;> exact TPC.noConfusion h
    · intro i f hpci
      rw [hg i] at hpci
      by_cases hit : i = t
      · rw [if_pos hit] at hpci
        cases TPC.doneFrame.inj (Option.some.inj hpci)
        rfl
      · rw [if_neg hit] at hpci
        exact (hnodone i f hpci).elim
    · intro f hf
      have hf2 := Option.some.inj hf
      cases PageState.ready.inj hf2
      exact ⟨t, hldr, hlogt⟩
    · intro i q hpci
      rw [hg i] at hpci
      by_cases hit : i = t
      · rw [if_pos hit] at hpci
        exact TPC.noConfusion (Option.some.inj hpci)
      · rw [if_neg hit] at hpci
        exact (hnofail i q hpci).elim
    · intro j q hj
      obtain ⟨hq, t'', pc'', hl'', hpc'', hdisj⟩ := hI.framesClean j q hj
      rw [hldr] at hl''
      cases Option.some.inj hl''
      rw [hpc] at hpc''
      cases Option.some.inj hpc''
      rcases hdisj with h | h | h
      · exact TPC.noConfusion h
      · cases TPC.publishing.inj h
        refine ⟨hq, t, .doneFrame fid, hldr, ?_, Or.inr (Or.inr rfl)⟩
        rw [hg t, if_pos rfl]
      · exact TPC.noConfusion h
    · intro hfail i f
      exact absurd hpc ((hI.noPubIfFail hfail t fid).1)
    · intro hfail f hf
      exact absurd hpc ((hI.noPubIfFail hfail t fid).1)

theorem protoInv_reachable (p : PageId) (ioOk : Bool) (m n : Nat)
    (c : ProtoConfig) (h : ProtoReachable p ioOk m n c) :
    ProtoInv p ioOk n c := by
  induction h with
  | refl => exact protoInv_init p ioOk m n
  | tail hsteps hstep ih =>
    obtain ⟨t, hst⟩ := hstep
    exact protoInv_step p ioOk n _ _ t ih hst


/-- C8: cold-cache coordination of `get_or_load_buffered_page`.  In every
configuration reachable by interleaving `n` threads calling
`read_page(p)` on a cold cache, the file manager's `read_page(p, …)` has
been invoked at most once, and only by the thread that inserted the
`Loading` entry; any two threads that returned a frame returned the same
frame; and once every thread has returned a frame, the file manager has
been invoked exactly once. -/
theorem c8_single_loader (p : PageId) (ioOk : Bool) (m n : Nat)
    (c : ProtoConfig) (h : ProtoReachable p ioOk m n c) :
    c.shared.readerLog.length ≤ 1 ∧
    (∀ t, t ∈ c.shared.readerLog → c.shared.loader = some t) ∧
    (∀ i j f g, c.threads.get? i = some (.doneFrame f) →
      c.threads.get? j = some (.doneFrame g) → f = g) ∧
    (0 < n → (∀ i, i < n → ∃ f, c.threads.get? i = some (.doneFrame f)) →
      c.shared.readerLog.length = 1) := by
  have hI := protoInv_reachable p ioOk m n c h
  refine ⟨?_, ?_, ?_, ?_⟩
  · rcases hl : c.shared.loader with _ | t
    · rw [(hI.loaderNone hl).2]
      simp
    · obtain ⟨pc', _, hc⟩ := hI.loaderSome t hl
      rcases hc with ⟨hlog, _⟩ | ⟨hlog, _⟩ <;> rw [hlog] <;> simp
  · intro t htl
    rcases hl : c.shared.loader with _ | t'
    · rw [(hI.loaderNone hl).2] at htl
      cases htl
    · obtain ⟨pc', _, hc⟩ := hI.loaderSome t' hl
      rcases hc with ⟨hlog, _⟩ | ⟨hlog, _⟩
      · rw [hlog] at htl
        cases htl
      · rw [hlog] at htl
        rw [List.mem_singleton.mp htl]
  · intro i j f g hi hj
    have h1 := hI.doneEntry i f hi
    have h2 := hI.doneEntry j g hj
    rw [h1] at h2
    exact PageState.ready.inj (Option.some.inj h2)
  · intro hn hall
    obtain ⟨f, h0⟩ := hall 0 hn
    have hent := hI.doneEntry 0 f h0
    obtain ⟨t, _, hlog⟩ := hI.readyLog f hent
    rw [hlog]
    rfl

/-- Witness for `c8_single_loader`: a complete interleaving of two
threads on a one-frame pool in which thread 0 loads and publishes and
thread 1 waits and adopts the published frame. -/
theorem c8_single_loader_witness :
    c8w7.shared.readerLog.length = 1 ∧
    c8w7.threads.get? 0 = some (.doneFrame 0) ∧
    c8w7.threads.get? 1 = some (.doneFrame 0) ∧
    c8w7.shared.loader = some 0 := by
  have s1 : Relation.ReflTransGen (ProtoStepRel pidA true) c8w0 c8w1 :=
    Relation.ReflTransGen.single ⟨0, by decide⟩
  have s2 : Relation.ReflTransGen (ProtoStepRel pidA true) c8w0 c8w2 :=
    s1.tail ⟨0, by decide⟩
  have s3 : Relation.ReflTransGen (ProtoStepRel pidA true) c8w0 c8w3 :=
    s2.tail ⟨1, by decide⟩
  have s4 : Relation.ReflTransGen (ProtoStepRel pidA true) c8w0 c8w4 :=
    s3.tail ⟨0, by decide⟩
  have s5 : Relation.ReflTransGen (ProtoStepRel pidA true) c8w0 c8w5 :=
    s4.tail ⟨0, by decide⟩
  have s6 : Relation.ReflTransGen (ProtoStepRel pidA true) c8w0 c8w6 :=
    s5.tail ⟨0, by decide⟩
  have hr : ProtoReachable pidA true 1 2 c8w7 :=
    s6.tail ⟨1, by decide⟩
  have h := c8_single_loader pidA true 1 2 c8w7 hr
  refine ⟨h.2.2.2 (by decide) ?_, by decide, by decide, by decide⟩
  intro i hi
  match i, hi with
  | 0, _ => exact ⟨0, by decide⟩
  | 1, _ => exact ⟨0, by decide⟩

/-- C9: if the file manager's `read_page` fails during a cache-miss
load, then in every reachable configuration where the loader has
returned: the error carries the requested page id, the page-map entry is
still `Loading`, every frame's page-id slot is back to `None` (the claim
was rolled back), the entry is never `Ready`, and no thread ever returns
a frame (waiters are never notified). -/
theorem c9_io_failure (p : PageId) (m n : Nat) (c : ProtoConfig)
    (h : ProtoReachable p false m n c) (i : Nat) (q : PageId)
    (hfail : c.threads.get? i = some (.doneIoFailed q)) :
    q = p ∧
    c.shared.entry = some .loading ∧
    (∀ j r, c.shared.frames.get? j ≠ some (some r)) ∧
    (∀ f, c.shared.entry ≠ some (.ready f)) ∧
    (∀ k f, c.threads.get? k ≠ some (.doneFrame f)) := by
  have hI := protoInv_reachable p false m n c h
  obtain ⟨hq, hent⟩ := hI.failEntry i q hfail
  have hldr : c.shared.loader = some i :=
    hI.loaderish i _ hfail (Or.inr (Or.inr (Or.inr (Or.inr ⟨q, rfl⟩))))
  refine ⟨hq, hent, ?_, hI.noReadyIfFail rfl,
    fun k f => (hI.noPubIfFail rfl k f).2⟩
  intro j r hj
  obtain ⟨hr, t', pc', hl', hpc', hdisj⟩ := hI.framesClean j r hj
  rw [hldr] at hl'
  cases Option.some.inj hl'
  rw [hfail] at hpc'
  have hpc2 := Option.some.inj hpc'
  rcases hdisj with hd | hd | hd <;> rw [← hpc2] at hd <;>
    exact TPC.noConfusion hd

/-- Witness for `c9_io_failure`: thread 0's load fails while thread 1
waits; the entry is stuck `Loading`, the frame is free again, and no
thread ever obtains a frame. -/
theorem c9_io_failure_witness :
    c9w5.shared.entry = some PageState.loading ∧
    (∀ j r, c9w5.shared.frames.get? j ≠ some (some r)) ∧
    (∀ k f, c9w5.threads.get? k ≠ some (TPC.doneFrame f)) := by
  have s1 : Relation.ReflTransGen (ProtoStepRel pidA false) c9w0 c9w1 :=
    Relation.ReflTransGen.single ⟨0, by decide⟩
  have s2 : Relation.ReflTransGen (ProtoStepRel pidA false) c9w0 c9w2 :=
    s1.tail ⟨0, by decide⟩
  have s3 : Relation.ReflTransGen (ProtoStepRel pidA false) c9w0 c9w3 :=
    s2.tail ⟨1, by decide⟩
  have s4 : Relation.ReflTransGen (ProtoStepRel pidA false) c9w0 c9w4 :=
    s3.tail ⟨0, by decide⟩
  have hr : ProtoReachable pidA false 1 2 c9w5 :=
    s4.tail ⟨0, by decide⟩
  have h := c9_io_failure pidA 1 2 c9w5 hr 0 pidA (by decide)
  exact ⟨h.2.1, h.2.2.1, h.2.2.2.2⟩
